import Mathlib

/-
Verification of the free-list allocator in src/my_malloc.c.

Two models of the same C code appear below.

* A list-level model: the free list is a `List Block` of (address, size)
  records in link order, the `next` pointers being represented by the list
  structure itself.  Every helper (`merge`, `mergeAll`, `split_block`,
  `add_to_addr_list`, `remove_from_addr_list`, `find_best_fit`) and every
  public entry point (`my_malloc`, `my_free`, `my_realloc`, `my_calloc`) is
  translated line by line from the C.  Payload bytes live in an explicit
  `mem : Nat → Nat`; block headers are represented structurally, not as
  bytes, which is faithful as long as free blocks and live allocations do
  not overlap.

* A pointer-level model (`P`-suffixed definitions): headers are records
  stored at addresses in a heap map, the free list is the chain of `next`
  fields from the head pointer, and a `next` field can hold the
  indeterminate value `NextVal.junk` (raw memory the C never initialised).
  Loops carry explicit fuel and every operation returns `none` when the C
  would read indeterminate memory or a missing header.  This model exposes
  a divergence the list-level model abstracts away: `add_to_addr_list`'s
  empty-list branch (my_malloc.c line 68-70) stores the block as the head
  WITHOUT resetting its stale `next` field, and
  `remove_from_addr_list` never clears the `next` field of the block it
  unlinks, so releasing a block into an empty free list can splice a
  still-live block into the free list.

The header file my_malloc.h is not part of src/, so the constants and the
heap-extension primitive are modelled from the spec: the header is a fixed
size record holding `size` and `next` (16 bytes on a 64-bit machine), the
chunk granularity is the fixed `SBRK_SIZE`, and `my_sbrk` returns the
previous heap boundary and advances it, or fails.
-/

namespace MyMalloc

/-- Modelled from the spec: the fixed header size `TOTAL_METADATA_SIZE` from
my_malloc.h (not under src/), covering the `size` and `next` fields: 16 bytes
(two 8-byte words) on a 64-bit machine. -/
def TOTAL_METADATA_SIZE : Nat := 16

/-- Modelled from the spec: the fixed chunk granularity `SBRK_SIZE` from
my_malloc.h (not under src/): 0x2000 bytes. -/
def SBRK_SIZE : Nat := 8192

/-- Modelled from the spec: `size_t` values wrap modulo 2^64 (64-bit machine);
used where the C multiplies sizes with no overflow guard. -/
def SIZE_T_MOD : Nat := 2 ^ 64

/-- The process-wide error codes of `enum my_malloc_err` (my_malloc.h, used
throughout my_malloc.c). -/
inductive my_malloc_err where
  | NO_ERROR
  | OUT_OF_MEMORY
  | SINGLE_REQUEST_TOO_LARGE
deriving DecidableEq, Repr

/-- A block of heap memory as the list-level model sees it: `addr` is the
address of its header (`metadata_t *`), `size` its payload capacity in bytes
(the `size` field of the header).  The `next` field of the C struct is
represented by the position of the block in a `List Block`. -/
structure Block where
  addr : Nat
  size : Nat
deriving DecidableEq, Repr

/-- merge (my_malloc.c lines 23-26): absorb the `right` block into `left`,
`left->size = left->size + right->size + TOTAL_METADATA_SIZE`; unlinking
`right` (`left->next = right->next`) is the list structure dropping it. -/
def merge (left right : Block) : Block :=
  ⟨left.addr, left.size + right.size + TOTAL_METADATA_SIZE⟩

/-- One pass of the `while` loop of mergeAll (my_malloc.c lines 35-45) with
`prev` the block the previous iteration ended on and the list the chain after
it.  Returns the list after the pass and the flag `i` (whether any merge
happened).  After a real merge the C sets `prev` to the absorbed (now dead)
right block; the next iteration's adjacency test and possible merge then only
write into memory inside the merged block's payload and never change the
chain, after which `prev` is back on a live block — so the pass simply
continues from the element after the merge, exactly as below. -/
def onePass : Block → List Block → List Block × Bool
  | prev, [] => ([prev], false)
  | prev, c :: rest =>
    if prev.addr + TOTAL_METADATA_SIZE + prev.size = c.addr then
      match rest with
      | [] => ([merge prev c], true)
      | d :: rest2 => (merge prev c :: (onePass d rest2).1, true)
    else
      (prev :: (onePass c rest).1, (onePass c rest).2)

/-- mergeAll's outer recursion (my_malloc.c lines 46-48: rerun the pass while
the flag `i` was set), with explicit fuel.  A pass that merges shortens the
list by at least one, so `l.length` passes always reach the fixpoint and the
fuel in `mergeAll` below is never exhausted. -/
def mergeAllAux : Nat → List Block → List Block
  | 0, l => l
  | fuel + 1, l =>
    match l with
    | [] => []
    | h :: t => if (onePass h t).2 then mergeAllAux fuel (onePass h t).1 else (onePass h t).1

/-- mergeAll (my_malloc.c lines 31-49): merge adjacent free blocks, restarting
the scan until a full pass performs no merge. -/
def mergeAll (l : List Block) : List Block :=
  mergeAllAux l.length l

/-- split_block (my_malloc.c lines 56-62): carve a block of payload `size` off
the back of `block`.  Returns (the shrunken front block, the new tail block).
The C writes only the size field of the new block; its `next` field is left as
raw payload bytes (see the pointer-level model). -/
def split_block (block : Block) (size : Nat) : Block × Block :=
  let realSize := size + TOTAL_METADATA_SIZE
  (⟨block.addr, block.size - realSize⟩,
   ⟨block.addr + TOTAL_METADATA_SIZE + block.size - realSize, size⟩)

/-- add_to_addr_list (my_malloc.c lines 67-86) at list level: insert `block`
before the first entry whose address is not below `block.addr`.  CAVEAT on
the empty case: the C (lines 68-71) installs `block` as the head WITHOUT
writing `block->next`, so the real free list continues into whatever stale or
uninitialised `next` value the block's header carries; the `[] => [block]`
equation below matches the C only when that value is NULL.  That holds for
the one insertion my_malloc performs (the fresh chunk's `next` is set to NULL
at line 164 before the call) and for a sole-entry removal-then-release, but
not for every release into an empty list — see the pointer-level model and
the theorems for claims C1 and C2, which exhibit the divergence. -/
def add_to_addr_list (block : Block) : List Block → List Block
  | [] => [block]
  | c :: rest =>
    if c.addr < block.addr then c :: add_to_addr_list block rest
    else block :: c :: rest

/-- remove_from_addr_list (my_malloc.c lines 91-109): unlink the first entry
with the given address; silently do nothing when there is no match. -/
def remove_from_addr_list (block : Block) : List Block → List Block
  | [] => []
  | c :: rest =>
    if c.addr = block.addr then rest
    else c :: remove_from_addr_list block rest

/-- Replace the first occurrence of the value `t` in the list — the in-place
mutation of the node `find_best_fit` returned, as performed by `split_block`
on the block's header. -/
def replaceFirst (t new : Block) : List Block → List Block
  | [] => []
  | c :: rest => if c = t then new :: rest else c :: replaceFirst t new rest

/-- The first pass of find_best_fit (my_malloc.c lines 120-129): scan for an
exact size match, returning it at once, while folding the running minimum
`bestSize` over the sizes that are above `size` and below the running value.
`bestSize` starts at the literal `0xffffffff` of line 121. -/
def findExactOrBest (size : Nat) : List Block → Nat → Option Block × Nat
  | [], best => (none, best)
  | c :: rest, best =>
    if c.size = size then (some c, best)
    else if size < c.size ∧ c.size < best then findExactOrBest size rest c.size
    else findExactOrBest size rest best

/-- The second pass of find_best_fit (my_malloc.c lines 130-137): the first
block whose size equals the chosen `bestSize`. -/
def findBySize (q : Nat) : List Block → Option Block
  | [] => none
  | c :: rest => if c.size = q then some c else findBySize q rest

/-- find_best_fit (my_malloc.c lines 116-139): exact match from the first
pass, else the first block carrying the minimal qualifying size found, else
`none`. -/
def find_best_fit (size : Nat) (l : List Block) : Option Block :=
  match l with
  | [] => none
  | _ :: _ =>
    match findExactOrBest size l 0xffffffff with
    | (some b, _) => some b
    | (none, best) => findBySize best l

/-- Look up the live allocation whose payload starts at `a` — the list-level
rendering of reading the header at `a - TOTAL_METADATA_SIZE` from memory. -/
def lookupLive (a : Nat) : List Block → Option Block
  | [] => none
  | b :: rest => if b.addr + TOTAL_METADATA_SIZE = a then some b else lookupLive a rest

/-- Drop the first live allocation whose payload starts at `a`. -/
def removeLive (a : Nat) : List Block → List Block
  | [] => []
  | b :: rest => if b.addr + TOTAL_METADATA_SIZE = a then rest else b :: removeLive a rest

/-- Total free payload bytes held by the free list. -/
def freeBytes (l : List Block) : Nat :=
  (l.map Block.size).sum

/-- The free list is strictly ascending by header address. -/
def sortedAddr (l : List Block) : Prop :=
  List.Chain' (fun a b => a.addr < b.addr) l

/-- No entry's end address (`addr + TOTAL_METADATA_SIZE + size`) equals the
next entry's address: no two consecutive free blocks are physically
adjacent. -/
def noAdjacent (l : List Block) : Prop :=
  List.Chain' (fun a b => a.addr + TOTAL_METADATA_SIZE + a.size ≠ b.addr) l

/-- Well-formed free list: consecutive entries are strictly ordered, disjoint
and non-adjacent — each block ends strictly before the next one starts.  Every
free list the allocator builds (absent the stale-`next` defect recorded at the
pointer level) satisfies this. -/
def wfFree (l : List Block) : Prop :=
  List.Chain' (fun a b => a.addr + TOTAL_METADATA_SIZE + a.size < b.addr) l

instance decSortedAddr : ∀ l : List Block, Decidable (sortedAddr l)
  | [] => isTrue List.chain'_nil
  | [a] => isTrue (List.chain'_singleton a)
  | a :: b :: l =>
    haveI := decSortedAddr (b :: l)
    decidable_of_iff (a.addr < b.addr ∧ sortedAddr (b :: l))
      (@List.chain'_cons Block (fun a b : Block => a.addr < b.addr) a b l).symm

instance decNoAdjacent : ∀ l : List Block, Decidable (noAdjacent l)
  | [] => isTrue List.chain'_nil
  | [a] => isTrue (List.chain'_singleton a)
  | a :: b :: l =>
    haveI := decNoAdjacent (b :: l)
    decidable_of_iff (a.addr + TOTAL_METADATA_SIZE + a.size ≠ b.addr ∧ noAdjacent (b :: l))
      (@List.chain'_cons Block
        (fun a b : Block => a.addr + TOTAL_METADATA_SIZE + a.size ≠ b.addr) a b l).symm

instance decWfFree : ∀ l : List Block, Decidable (wfFree l)
  | [] => isTrue List.chain'_nil
  | [a] => isTrue (List.chain'_singleton a)
  | a :: b :: l =>
    haveI := decWfFree (b :: l)
    decidable_of_iff (a.addr + TOTAL_METADATA_SIZE + a.size < b.addr ∧ wfFree (b :: l))
      (@List.chain'_cons Block
        (fun a b : Block => a.addr + TOTAL_METADATA_SIZE + a.size < b.addr) a b l).symm

/-- The allocator's list-level state: the free list in link order, the live
allocations (a ghost record of the headers the C leaves in front of payloads
it handed out), the heap boundary `my_sbrk` would return next, the
process-wide `my_malloc_errno`, and the payload bytes of the heap. -/
structure AllocState where
  free : List Block
  live : List Block
  heapEnd : Nat
  errno : my_malloc_err
  mem : Nat → Nat

/-- The tail of my_malloc (my_malloc.c lines 174-190) once a block `t` has
been selected: exact fit is removed whole; a fit with surplus of at least a
header plus one byte is split, the tail carved off and returned while the
shrunken front block stays in place in the list; a smaller surplus hands the
whole block over unsplit.  The final fall-through (line 190) returns NULL and
leaves the errno set at entry. -/
def finishAlloc (size : Nat) (t : Block) (st : AllocState) : Option Nat × AllocState :=
  if t.size = size then
    (some (t.addr + TOTAL_METADATA_SIZE),
     { st with free := remove_from_addr_list t st.free,
               live := t :: st.live,
               errno := .NO_ERROR })
  else if size < t.size then
    if size + TOTAL_METADATA_SIZE + 1 ≤ t.size then
      (some ((split_block t size).2.addr + TOTAL_METADATA_SIZE),
       { st with free := replaceFirst t (split_block t size).1 st.free,
                 live := (split_block t size).2 :: st.live,
                 errno := .NO_ERROR })
    else
      (some (t.addr + TOTAL_METADATA_SIZE),
       { st with free := remove_from_addr_list t st.free,
                 live := t :: st.live,
                 errno := .NO_ERROR })
  else (none, st)

/-- The state after a successful `my_sbrk(SBRK_SIZE)` (my_malloc.c lines
158-166): the fresh chunk — its header consuming `TOTAL_METADATA_SIZE` of the
chunk and its `next` set to NULL — is registered into the free list and a full
coalescing pass runs.  The chunk starts at the previous boundary (spec §6: the
primitive returns the previous boundary address). -/
def grownState (st0 : AllocState) : AllocState :=
  { st0 with
    free := mergeAll (add_to_addr_list
      ⟨st0.heapEnd, SBRK_SIZE - TOTAL_METADATA_SIZE⟩ st0.free),
    heapEnd := st0.heapEnd + SBRK_SIZE }

/-- my_malloc's grow-and-retry path (my_malloc.c lines 158-172): extend the
heap by one chunk, re-run find_best_fit, and fail with OUT_OF_MEMORY when
still nothing fits (the freshly registered chunk stays in the free list). -/
def growRetry (size : Nat) (st0 : AllocState) : Option Nat × AllocState :=
  match find_best_fit size (grownState st0).free with
  | none => (none, { grownState st0 with errno := .OUT_OF_MEMORY })
  | some t =>
    if t.size < size then (none, { grownState st0 with errno := .OUT_OF_MEMORY })
    else finishAlloc size t (grownState st0)

/-- my_malloc (my_malloc.c lines 147-191).  `sbrkOk` models whether the one
possible `my_sbrk(SBRK_SIZE)` call of this invocation succeeds. -/
def my_malloc (size : Nat) (sbrkOk : Bool) (st : AllocState) : Option Nat × AllocState :=
  let st0 := { st with errno := .NO_ERROR }
  if SBRK_SIZE - TOTAL_METADATA_SIZE < size then
    (none, { st0 with errno := .SINGLE_REQUEST_TOO_LARGE })
  else if size = 0 then
    (none, st0)
  else
    match find_best_fit size st0.free with
    | some t => finishAlloc size t st0
    | none =>
      if sbrkOk then growRetry size st0
      else (none, { st0 with errno := .OUT_OF_MEMORY })

/-- my_free (my_malloc.c lines 235-243): a NULL pointer is a no-op; otherwise
the header at `ptr - TOTAL_METADATA_SIZE` is inserted into the free list in
address order and a full coalescing pass runs.  The C validates nothing: it
reads whatever header bytes sit in front of the payload.  The model recovers
that header from the `live` record, which is that same header for every
pointer the allocator handed out and has not since recycled; a pointer with no
live record (foreign or double free, undefined in C) is modelled as a no-op
and is outside every claim. -/
def my_free (p : Option Nat) (st : AllocState) : AllocState :=
  let st0 := { st with errno := .NO_ERROR }
  match p with
  | none => st0
  | some a =>
    match lookupLive a st0.live with
    | some b =>
      { st0 with free := mergeAll (add_to_addr_list b st0.free),
                 live := removeLive a st0.live }
    | none => st0

/-- my_realloc (my_malloc.c lines 196-216): NULL defers to my_malloc, size 0
to my_free; otherwise a fresh block is allocated, `min(old size, new size)`
payload bytes are copied, and the old block is released.  When the fresh
allocation fails the function returns NULL at line 208 with nothing else
done.  (The C stores the minimum into an `int`; every size this allocator can
hand out is at most `SBRK_SIZE`, so no truncation occurs.)  A non-NULL
pointer with no live record is undefined in C; the model skips the copy for
it. -/
def my_realloc (p : Option Nat) (size : Nat) (sbrkOk : Bool) (st : AllocState) :
    Option Nat × AllocState :=
  let st0 := { st with errno := .NO_ERROR }
  match p with
  | none => my_malloc size sbrkOk st0
  | some a =>
    if size = 0 then (none, my_free (some a) st0)
    else
      match my_malloc size sbrkOk st0 with
      | (none, st1) => (none, st1)
      | (some t, st1) =>
        match lookupLive a st1.live with
        | none => (some t, my_free (some a) st1)
        | some b =>
          let m := min b.size size
          let st2 := { st1 with
            mem := fun x => if t ≤ x ∧ x < t + m then st1.mem (a + (x - t)) else st1.mem x }
          (some t, my_free (some a) st2)

/-- my_calloc (my_malloc.c lines 221-230): request `nmemb * size` bytes — the
product computed in `size_t`, wrapping modulo 2^64 with no overflow guard —
and on success zero the returned region of that many bytes. -/
def my_calloc (nmemb size : Nat) (sbrkOk : Bool) (st : AllocState) :
    Option Nat × AllocState :=
  let st0 := { st with errno := .NO_ERROR }
  let total := nmemb * size % SIZE_T_MOD
  match my_malloc total sbrkOk st0 with
  | (none, st1) => (none, st1)
  | (some p, st1) =>
    (some p, { st1 with mem := fun x => if p ≤ x ∧ x < p + total then 0 else st1.mem x })

/-- A concrete empty starting state. -/
def stEmpty : AllocState :=
  { free := [], live := [], heapEnd := 65536, errno := .NO_ERROR, mem := fun _ => 0 }

/-- A concrete state with one 100-byte free block and every payload byte 7
(to make zero-filling observable). -/
def stLump : AllocState :=
  { free := [⟨65536, 100⟩], live := [], heapEnd := 73728, errno := .NO_ERROR, mem := fun _ => 7 }


/-
The pointer-level model.  A header's `next` field holds a real pointer value
(`null` or `ptr a`) or `junk` — bytes the C never wrote (a split block's tail
header is built over raw payload bytes and its `next` field is never
initialised; my_malloc.c line 56-62 writes only the size).  Every traversal
carries fuel; every function returns `none` when fuel runs out, a header is
read where none was written, or a `junk` next field would be followed — all
situations where the C's behaviour depends on indeterminate memory.  The
concrete executions below stay entirely inside the defined fragment.
-/

/-- A `next` pointer value at pointer level: NULL, an address, or
indeterminate bytes the C never initialised. -/
inductive NextVal where
  | null
  | ptr (a : Nat)
  | junk
deriving DecidableEq, Repr

/-- A block header as stored in heap memory: the `size` and `next` fields of
`metadata_t`. -/
structure PHeader where
  size : Nat
  next : NextVal
deriving DecidableEq, Repr

/-- Pointer-level allocator state: the headers written so far (a partial map
from addresses), the `address_list` head pointer, the heap boundary, the
errno, and the ghost list of live payload pointers (most recent first). -/
structure PState where
  heap : Nat → Option PHeader
  head : Option Nat
  heapEnd : Nat
  errno : my_malloc_err
  live : List Nat

/-- Read a `next` field as a pointer: `none` when the field holds
indeterminate bytes (following it would be undefined behaviour). -/
def nextToPtr : NextVal → Option (Option Nat)
  | .null => some none
  | .ptr a => some (some a)
  | .junk => none

/-- Store a pointer value into a `next` field. -/
def optToNext : Option Nat → NextVal
  | none => .null
  | some a => .ptr a

/-- Write the header at address `a`. -/
def hset (st : PState) (a : Nat) (h : PHeader) : PState :=
  { st with heap := fun x => if x = a then some h else st.heap x }

/-- The tail of add_to_addr_list (my_malloc.c lines 78-85): link `block`
between `prev` and `curr`.  Note line 79-80: when `prev` is NULL the C sets
`address_list = block; block->next = curr` — both writes happen in the
non-empty-list path, unlike the empty-list early return at lines 68-71. -/
def addLinkP (st : PState) (block : Nat) (prev curr : Option Nat) : Option PState :=
  match st.heap block with
  | none => none
  | some bh =>
    match prev with
    | none => some { hset st block { bh with next := optToNext curr } with head := some block }
    | some p =>
      match st.heap p with
      | none => none
      | some ph =>
        some (hset (hset st p { ph with next := .ptr block }) block { bh with next := optToNext curr })

/-- The scan loop of add_to_addr_list (my_malloc.c lines 74-77): advance while
`curr != NULL && (uintptr_t)curr < (uintptr_t)block`. -/
def addScanP (st : PState) (block : Nat) : Nat → Option Nat → Option Nat → Option PState
  | 0, _, _ => none
  | fuel + 1, prev, curr =>
    match curr with
    | none => addLinkP st block prev none
    | some c =>
      if c < block then
        match st.heap c with
        | none => none
        | some ch =>
          match nextToPtr ch.next with
          | none => none
          | some nxt => addScanP st block fuel (some c) nxt
      else addLinkP st block prev (some c)

/-- add_to_addr_list (my_malloc.c lines 67-86) at pointer level.  The
empty-list branch (lines 68-71) makes `block` the head and returns WITHOUT
touching `block->next`: whatever stale pointer the header still carries
becomes the continuation of the free list. -/
def add_to_addr_listP (fuel : Nat) (block : Nat) (st : PState) : Option PState :=
  match st.head with
  | none => some { st with head := some block }
  | some _ => addScanP st block fuel none st.head

/-- The scan loop of remove_from_addr_list (my_malloc.c lines 95-107).  The
unlinked block's own `next` field is never cleared. -/
def removeScanP (st : PState) (block : Nat) : Nat → Option Nat → Option Nat → Option PState
  | 0, _, _ => none
  | fuel + 1, prev, curr =>
    match curr with
    | none => some st
    | some c =>
      if c = block then
        match st.heap c with
        | none => none
        | some ch =>
          match prev with
          | none =>
            match nextToPtr ch.next with
            | none => none
            | some nxt => some { st with head := nxt }
          | some p =>
            match st.heap p with
            | none => none
            | some ph => some (hset st p { ph with next := ch.next })
      else
        match st.heap c with
        | none => none
        | some ch =>
          match nextToPtr ch.next with
          | none => none
          | some nxt => removeScanP st block fuel (some c) nxt

/-- remove_from_addr_list (my_malloc.c lines 91-109) at pointer level. -/
def remove_from_addr_listP (fuel : Nat) (block : Nat) (st : PState) : Option PState :=
  match st.head with
  | none => some st
  | some _ => removeScanP st block fuel none st.head

/-- First pass of find_best_fit (my_malloc.c lines 120-129) at pointer
level. -/
def fbfPass1P (st : PState) (size : Nat) : Nat → Option Nat → Nat → Option (Option Nat × Nat)
  | 0, _, _ => none
  | fuel + 1, curr, best =>
    match curr with
    | none => some (none, best)
    | some c =>
      match st.heap c with
      | none => none
      | some ch =>
        if ch.size = size then some (some c, best)
        else
          match nextToPtr ch.next with
          | none => none
          | some nxt =>
            if size < ch.size ∧ ch.size < best then fbfPass1P st size fuel nxt ch.size
            else fbfPass1P st size fuel nxt best

/-- Second pass of find_best_fit (my_malloc.c lines 130-137) at pointer
level. -/
def fbfPass2P (st : PState) (q : Nat) : Nat → Option Nat → Option (Option Nat)
  | 0, _ => none
  | fuel + 1, curr =>
    match curr with
    | none => some none
    | some c =>
      match st.heap c with
      | none => none
      | some ch =>
        if ch.size = q then some (some c)
        else
          match nextToPtr ch.next with
          | none => none
          | some nxt => fbfPass2P st q fuel nxt

/-- find_best_fit (my_malloc.c lines 116-139) at pointer level. -/
def find_best_fitP (fuel : Nat) (size : Nat) (st : PState) : Option (Option Nat) :=
  match st.head with
  | none => some none
  | some _ =>
    match fbfPass1P st size fuel st.head 0xffffffff with
    | none => none
    | some (some c, _) => some (some c)
    | some (none, best) => fbfPass2P st best fuel st.head

/-- The while loop of mergeAll (my_malloc.c lines 38-45) at pointer level:
`prev` and `curr` walk the chain; an adjacent pair is merged in place
(my_malloc.c lines 23-26: `prev->size += curr->size + 16; prev->next =
curr->next`), after which the loop body still advances `prev` onto the
absorbed block — faithfully reproduced here, dead writes included. -/
def mergePassP : Nat → PState → Nat → Option Nat → Bool → Option (PState × Bool)
  | 0, _, _, _, _ => none
  | fuel + 1, st, prev, curr, flag =>
    match curr with
    | none => some (st, flag)
    | some c =>
      match st.heap prev with
      | none => none
      | some ph =>
        if prev + TOTAL_METADATA_SIZE + ph.size = c then
          match st.heap c with
          | none => none
          | some ch =>
            match nextToPtr ch.next with
            | none => none
            | some nxt =>
              mergePassP fuel
                (hset st prev { size := ph.size + ch.size + TOTAL_METADATA_SIZE, next := ch.next })
                c nxt true
        else
          match st.heap c with
          | none => none
          | some ch =>
            match nextToPtr ch.next with
            | none => none
            | some nxt => mergePassP fuel st c nxt flag

/-- The recursion of mergeAll (my_malloc.c lines 31-49) at pointer level:
repeat full passes while a pass merged something. -/
def mergeAllOuterP : Nat → Nat → PState → Option PState
  | 0, _, _ => none
  | outer + 1, passFuel, st =>
    match st.head with
    | none => some st
    | some h =>
      match st.heap h with
      | none => none
      | some hh =>
        match nextToPtr hh.next with
        | none => none
        | some nxt =>
          match mergePassP passFuel st h nxt false with
          | none => none
          | some (st2, true) => mergeAllOuterP outer passFuel st2
          | some (st2, false) => some st2

/-- mergeAll at pointer level with a common fuel. -/
def mergeAllP (fuel : Nat) (st : PState) : Option PState :=
  mergeAllOuterP fuel fuel st

/-- The tail of my_malloc (lines 174-190) at pointer level, after block `t`
was selected.  The split branch reproduces split_block (lines 56-62) plus the
redundant `ret->size = size` of line 181: only the size field of the new tail
header is written; its `next` field keeps whatever the underlying memory held
(`junk` where nothing was ever written). -/
def finishP (fuel : Nat) (size : Nat) (t : Nat) (st : PState) : Option (Option Nat × PState) :=
  match st.heap t with
  | none => none
  | some th =>
    if th.size = size then
      match remove_from_addr_listP fuel t st with
      | none => none
      | some st2 =>
        some (some (t + TOTAL_METADATA_SIZE),
          { st2 with errno := .NO_ERROR, live := (t + TOTAL_METADATA_SIZE) :: st2.live })
    else if size < th.size then
      if size + TOTAL_METADATA_SIZE + 1 ≤ th.size then
        some (some (t + TOTAL_METADATA_SIZE + th.size - (size + TOTAL_METADATA_SIZE) +
            TOTAL_METADATA_SIZE),
          (let na := t + TOTAL_METADATA_SIZE + th.size - (size + TOTAL_METADATA_SIZE)
           let st2 := hset st t { th with size := th.size - (size + TOTAL_METADATA_SIZE) }
           let stale : NextVal := match st2.heap na with | some oh => oh.next | none => .junk
           let st3 := hset st2 na { size := size, next := stale }
           { st3 with errno := .NO_ERROR,
                      live := (na + TOTAL_METADATA_SIZE) :: st3.live }))
      else
        match remove_from_addr_listP fuel t st with
        | none => none
        | some st2 =>
          some (some (t + TOTAL_METADATA_SIZE),
            { st2 with errno := .NO_ERROR, live := (t + TOTAL_METADATA_SIZE) :: st2.live })
    else some (none, st)

/-- my_malloc (my_malloc.c lines 147-191) at pointer level. -/
def my_mallocP (fuel : Nat) (size : Nat) (sbrkOk : Bool) (st : PState) :
    Option (Option Nat × PState) :=
  let st0 := { st with errno := .NO_ERROR }
  if SBRK_SIZE - TOTAL_METADATA_SIZE < size then
    some (none, { st0 with errno := .SINGLE_REQUEST_TOO_LARGE })
  else if size = 0 then some (none, st0)
  else
    match find_best_fitP fuel size st0 with
    | none => none
    | some (some t) => finishP fuel size t st0
    | some none =>
      if sbrkOk then
        let nb := st0.heapEnd
        let st1 := { hset st0 nb { size := SBRK_SIZE - TOTAL_METADATA_SIZE, next := .null } with
                     heapEnd := st0.heapEnd + SBRK_SIZE }
        match add_to_addr_listP fuel nb st1 with
        | none => none
        | some st2 =>
          match mergeAllP fuel st2 with
          | none => none
          | some st3 =>
            match find_best_fitP fuel size st3 with
            | none => none
            | some none => some (none, { st3 with errno := .OUT_OF_MEMORY })
            | some (some t) =>
              match st3.heap t with
              | none => none
              | some th =>
                if th.size < size then some (none, { st3 with errno := .OUT_OF_MEMORY })
                else finishP fuel size t st3
      else some (none, { st0 with errno := .OUT_OF_MEMORY })

/-- my_free (my_malloc.c lines 235-243) at pointer level. -/
def my_freeP (fuel : Nat) (p : Option Nat) (st : PState) : Option PState :=
  let st0 := { st with errno := .NO_ERROR }
  match p with
  | none => some st0
  | some a =>
    let st1 := { st0 with live := st0.live.erase a }
    match add_to_addr_listP fuel (a - TOTAL_METADATA_SIZE) st1 with
    | none => none
    | some st2 => mergeAllP fuel st2

/-- The free-list chain from a cursor, as a list of header addresses. -/
def pChain (st : PState) : Nat → Option Nat → Option (List Nat)
  | 0, _ => none
  | _ + 1, none => some []
  | fuel + 1, some c =>
    match st.heap c with
    | none => none
    | some ch =>
      match nextToPtr ch.next with
      | none => none
      | some nxt => (pChain st fuel nxt).map (c :: ·)

/-- The pristine pointer-level state: no headers written, empty free list,
heap boundary at 65536. -/
def pInit : PState :=
  { heap := fun _ => none, head := none, heapEnd := 65536, errno := .NO_ERROR, live := [] }

/-
The public-call sequence exhibiting the stale-`next` defect, from the pristine
heap (all calls release only pointers previously returned and still live):
  1. p1 := malloc 100     -- extends the heap; splits the chunk; p1 = 73628
  2. p2 := malloc 200     -- splits again; p2 = 73412
  3. free p1              -- free list: [65536 (size 7844), 73612 (size 100)]
  4. p4 := malloc 7844    -- exact fit at 65536, removed from the head;
                          -- its header's next field still points to 73612
  5. p5 := malloc 100     -- exact fit at 73612; the free list is now empty;
                          -- p5 = 73628
  6. free p4              -- the empty-list branch of add_to_addr_list makes
                          -- 65536 the head without resetting its stale next
                          -- field, so the free list becomes
                          -- [65536, 73612] — and 73612 is the LIVE block p5.
-/

/-- State after call 1. -/
def pS1 : Option PState := (my_mallocP 64 100 true pInit).map (·.2)

/-- State after call 2. -/
def pS2 : Option PState := pS1.bind fun s => (my_mallocP 64 200 true s).map (·.2)

/-- State after call 3 (release of p1 = 73628). -/
def pS3 : Option PState := pS2.bind fun s => my_freeP 64 (some 73628) s

/-- State after call 4. -/
def pS4 : Option PState := pS3.bind fun s => (my_mallocP 64 7844 true s).map (·.2)

/-- State after call 5. -/
def pS5 : Option PState := pS4.bind fun s => (my_mallocP 64 100 true s).map (·.2)

/-- State after call 6 (release of p4 = 65552). -/
def pS6 : Option PState := pS5.bind fun s => my_freeP 64 (some 65552) s

/-- The state after the six calls (defaulting to `pInit`, which the theorem
rules out via `pS6.isSome`). -/
def pFinal : PState := pS6.getD pInit

/-- One further allocation in the corrupted state, to show the overlap being
handed out. -/
def pSeventh : Option (Option Nat × PState) := my_mallocP 64 100 true pFinal

/-- The state after the trace's first five calls (the free list is empty at
this point and block 65536, about to be released, carries a stale `next`
pointing at the live block 73612). -/
def pPenult : PState := pS5.getD pInit

/-
A second, shorter release-into-empty-list sequence: the released block is a
tail that split_block carved off, so its header's `next` field was never
written at all (raw payload bytes):
  1. p1 := malloc 100     -- splits the fresh chunk; p1 = 73628, the tail
                          -- header at 73612 has an uninitialised next field
  2. p2 := malloc 8060    -- exact fit of the remainder; the free list is
                          -- now empty
  3. free p1              -- the empty-list branch installs 73612 as head
                          -- without writing its next; mergeAll then reads
                          -- the uninitialised field as a pointer
-/

/-- State after call 2 of the short sequence. -/
def pJ2 : Option PState := pS1.bind fun s => (my_mallocP 64 8060 true s).map (·.2)

/-- Call 3 of the short sequence: the model returns `none` because the C
would read the released tail block's uninitialised `next` field as a
pointer. -/
def pJ3 : Option PState := pJ2.bind fun s => my_freeP 64 (some 73628) s

/-
Lemmas about the free-list helpers.
-/

theorem wfFree_sortedAddr {l : List Block} (h : wfFree l) : sortedAddr l :=
  h.imp (fun hab => by omega)

theorem wfFree_noAdjacent {l : List Block} (h : wfFree l) : noAdjacent l :=
  h.imp (fun hab => by omega)

/-- Unfolding lemma for `onePass` on a cons, valid for an arbitrary tail. -/
theorem onePass_cons (prev c : Block) (rest : List Block) :
    onePass prev (c :: rest) =
      if prev.addr + TOTAL_METADATA_SIZE + prev.size = c.addr then
        match rest with
        | [] => ([merge prev c], true)
        | d :: rest2 => (merge prev c :: (onePass d rest2).1, true)
      else (prev :: (onePass c rest).1, (onePass c rest).2) := by
  cases rest <;> rfl

theorem onePass_fst_length : ∀ (prev : Block) (l : List Block),
    (onePass prev l).1.length ≤ l.length + 1
  | _, [] => by simp [onePass]
  | prev, c :: rest => by
    by_cases hadj : prev.addr + TOTAL_METADATA_SIZE + prev.size = c.addr
    · match rest with
      | [] => simp [onePass_cons, hadj]
      | d :: rest2 =>
        have ih := onePass_fst_length d rest2
        simp only [onePass_cons, if_pos hadj, List.length_cons]
        omega
    · have ih := onePass_fst_length c rest
      simp only [onePass_cons, if_neg hadj, List.length_cons]
      omega

theorem onePass_snd_true_length : ∀ (prev : Block) (l : List Block),
    (onePass prev l).2 = true → (onePass prev l).1.length ≤ l.length
  | _, [], h => by simp [onePass] at h
  | prev, c :: rest, h => by
    by_cases hadj : prev.addr + TOTAL_METADATA_SIZE + prev.size = c.addr
    · match rest with
      | [] => simp [onePass_cons, hadj]
      | d :: rest2 =>
        have ih := onePass_fst_length d rest2
        simp only [onePass_cons, if_pos hadj, List.length_cons]
        omega
    · have hflag : (onePass c rest).2 = true := by
        simpa only [onePass_cons, if_neg hadj] using h
      have ih := onePass_snd_true_length c rest hflag
      simp only [onePass_cons, if_neg hadj, List.length_cons]
      omega

theorem onePass_false : ∀ (prev : Block) (l : List Block),
    (onePass prev l).2 = false → (onePass prev l).1 = prev :: l ∧ noAdjacent (prev :: l)
  | prev, [], _ => by
    refine ⟨by simp [onePass], ?_⟩
    simp [noAdjacent]
  | prev, c :: rest, h => by
    by_cases hadj : prev.addr + TOTAL_METADATA_SIZE + prev.size = c.addr
    · exfalso
      match rest with
      | [] => simp [onePass_cons, hadj] at h
      | d :: rest2 => simp [onePass_cons, hadj] at h
    · have h2 : (onePass c rest).2 = false := by
        simpa only [onePass_cons, if_neg hadj] using h
      have ih := onePass_false c rest h2
      refine ⟨?_, ?_⟩
      · simp [onePass_cons, if_neg hadj, ih.1]
      · rw [noAdjacent, List.chain'_cons]
        exact ⟨hadj, ih.2⟩

theorem noAdj_onePass : ∀ (prev : Block) (l : List Block),
    noAdjacent (prev :: l) → onePass prev l = (prev :: l, false)
  | _, [], _ => by simp [onePass]
  | prev, c :: rest, h => by
    rw [noAdjacent, List.chain'_cons] at h
    have ih := noAdj_onePass c rest h.2
    simp [onePass_cons, if_neg h.1, ih]

theorem mergeAllAux_of_noAdjacent : ∀ (fuel : Nat) (l : List Block),
    noAdjacent l → mergeAllAux fuel l = l
  | 0, _, _ => rfl
  | _ + 1, [], _ => rfl
  | _ + 1, h :: t, hna => by
    have h1 := noAdj_onePass h t hna
    simp [mergeAllAux, h1]

theorem mergeAll_of_noAdjacent {l : List Block} (h : noAdjacent l) : mergeAll l = l :=
  mergeAllAux_of_noAdjacent _ _ h

theorem mergeAllAux_noAdjacent : ∀ (fuel : Nat) (l : List Block),
    l.length ≤ fuel → noAdjacent (mergeAllAux fuel l)
  | 0, l, h => by
    have : l = [] := List.eq_nil_of_length_eq_zero (by omega)
    subst this
    simp [mergeAllAux, noAdjacent]
  | _ + 1, [], _ => by simp [mergeAllAux, noAdjacent]
  | fuel + 1, h :: t, hlen => by
    by_cases hf : (onePass h t).2 = true
    · have hl := onePass_snd_true_length h t hf
      have ih := mergeAllAux_noAdjacent fuel (onePass h t).1
        (by simp only [List.length_cons] at hlen; omega)
      simpa [mergeAllAux, hf] using ih
    · have h2 := onePass_false h t (by simpa using hf)
      simpa [mergeAllAux, hf, h2.1] using h2.2

theorem mergeAll_noAdjacent (l : List Block) : noAdjacent (mergeAll l) :=
  mergeAllAux_noAdjacent _ _ le_rfl

theorem onePass_fst_head : ∀ (prev : Block) (l : List Block),
    ∃ sz tl, (onePass prev l).1 = Block.mk prev.addr sz :: tl
  | prev, [] => ⟨prev.size, [], rfl⟩
  | prev, c :: rest => by
    by_cases hadj : prev.addr + TOTAL_METADATA_SIZE + prev.size = c.addr
    · match rest with
      | [] => exact ⟨(merge prev c).size, [], by simp [onePass_cons, hadj, merge]⟩
      | d :: rest2 =>
        exact ⟨(merge prev c).size, (onePass d rest2).1, by simp [onePass_cons, hadj, merge]⟩
    · exact ⟨prev.size, (onePass c rest).1, by simp [onePass_cons, if_neg hadj]⟩

theorem onePass_sorted : ∀ (prev : Block) (l : List Block),
    sortedAddr (prev :: l) → sortedAddr ((onePass prev l).1)
  | _, [], _ => by simp [onePass, sortedAddr]
  | prev, c :: rest, h => by
    rw [sortedAddr, List.chain'_cons] at h
    by_cases hadj : prev.addr + TOTAL_METADATA_SIZE + prev.size = c.addr
    · match rest with
      | [] => simp [onePass, hadj, sortedAddr]
      | d :: rest2 =>
        have hcd : c.addr < d.addr := (List.chain'_cons.mp h.2).1
        have ih := onePass_sorted d rest2 (List.chain'_cons.mp h.2).2
        obtain ⟨sz, tl, hhd⟩ := onePass_fst_head d rest2
        rw [sortedAddr] at ih ⊢
        rw [hhd] at ih
        simp only [onePass_cons, if_pos hadj]
        rw [hhd, List.chain'_cons]
        exact ⟨by simp only [merge]; omega, ih⟩
    · have ih := onePass_sorted c rest h.2
      obtain ⟨sz, tl, hhd⟩ := onePass_fst_head c rest
      rw [sortedAddr] at ih ⊢
      rw [hhd] at ih
      simp only [onePass_cons, if_neg hadj]
      rw [hhd, List.chain'_cons]
      exact ⟨h.1, ih⟩

theorem mergeAllAux_sorted : ∀ (fuel : Nat) (l : List Block),
    sortedAddr l → sortedAddr (mergeAllAux fuel l)
  | 0, _, h => h
  | _ + 1, [], h => h
  | fuel + 1, h :: t, hs => by
    by_cases hf : (onePass h t).2 = true
    · have ih := mergeAllAux_sorted fuel (onePass h t).1 (onePass_sorted h t hs)
      simpa [mergeAllAux, hf] using ih
    · have h2 := onePass_false h t (by simpa using hf)
      simpa [mergeAllAux, hf, h2.1] using hs

theorem mergeAll_sorted {l : List Block} (h : sortedAddr l) : sortedAddr (mergeAll l) :=
  mergeAllAux_sorted _ _ h

theorem feb_fst_none_iff (s : Nat) : ∀ (l : List Block) (best : Nat),
    (findExactOrBest s l best).1 = none ↔ ∀ c ∈ l, c.size ≠ s
  | [], best => by simp [findExactOrBest]
  | c :: rest, best => by
    by_cases hc : c.size = s
    · simp [findExactOrBest, hc]
    · by_cases hlt : s < c.size ∧ c.size < best
      · rw [show findExactOrBest s (c :: rest) best = findExactOrBest s rest c.size by
          simp [findExactOrBest, hc, hlt]]
        rw [feb_fst_none_iff s rest c.size]
        simp [hc]
      · rw [show findExactOrBest s (c :: rest) best = findExactOrBest s rest best by
          simp [findExactOrBest, hc, hlt]]
        rw [feb_fst_none_iff s rest best]
        simp [hc]

theorem feb_best_le (s : Nat) : ∀ (l : List Block) (best : Nat),
    (findExactOrBest s l best).1 = none → (findExactOrBest s l best).2 ≤ best
  | [], best, _ => by simp [findExactOrBest]
  | c :: rest, best, h => by
    by_cases hc : c.size = s
    · simp [findExactOrBest, hc] at h
    · by_cases hlt : s < c.size ∧ c.size < best
      · have heq : findExactOrBest s (c :: rest) best = findExactOrBest s rest c.size := by
          simp [findExactOrBest, hc, hlt]
        rw [heq] at h ⊢
        have := feb_best_le s rest c.size h
        omega
      · have heq : findExactOrBest s (c :: rest) best = findExactOrBest s rest best := by
          simp [findExactOrBest, hc, hlt]
        rw [heq] at h ⊢
        exact feb_best_le s rest best h

theorem feb_best_min (s : Nat) : ∀ (l : List Block) (best : Nat),
    (findExactOrBest s l best).1 = none →
    ∀ c ∈ l, s < c.size → (findExactOrBest s l best).2 ≤ c.size
  | [], _, _ => by simp
  | c :: rest, best, h => by
    intro x hx hsx
    by_cases hc : c.size = s
    · simp [findExactOrBest, hc] at h
    · by_cases hlt : s < c.size ∧ c.size < best
      · have heq : findExactOrBest s (c :: rest) best = findExactOrBest s rest c.size := by
          simp [findExactOrBest, hc, hlt]
        rw [heq] at h ⊢
        rcases List.mem_cons.mp hx with rfl | hx'
        · exact feb_best_le s rest x.size h
        · exact feb_best_min s rest c.size h x hx' hsx
      · have heq : findExactOrBest s (c :: rest) best = findExactOrBest s rest best := by
          simp [findExactOrBest, hc, hlt]
        rw [heq] at h ⊢
        rcases List.mem_cons.mp hx with rfl | hx'
        · have hle := feb_best_le s rest best h
          rw [not_and_or] at hlt
          rcases hlt with h1 | h2
          · omega
          · omega
        · exact feb_best_min s rest best h x hx' hsx

theorem feb_best_eq (s : Nat) : ∀ (l : List Block) (best : Nat),
    (findExactOrBest s l best).1 = none →
    (findExactOrBest s l best).2 = best ∨
      ∃ c ∈ l, (findExactOrBest s l best).2 = c.size ∧ s < c.size
  | [], best, _ => Or.inl (by simp [findExactOrBest])
  | c :: rest, best, h => by
    by_cases hc : c.size = s
    · simp [findExactOrBest, hc] at h
    · by_cases hlt : s < c.size ∧ c.size < best
      · have heq : findExactOrBest s (c :: rest) best = findExactOrBest s rest c.size := by
          simp [findExactOrBest, hc, hlt]
        rw [heq] at h ⊢
        rcases feb_best_eq s rest c.size h with h1 | ⟨d, hd, h2⟩
        · exact Or.inr ⟨c, by simp, h1, hlt.1⟩
        · exact Or.inr ⟨d, by simp [hd], h2⟩
      · have heq : findExactOrBest s (c :: rest) best = findExactOrBest s rest best := by
          simp [findExactOrBest, hc, hlt]
        rw [heq] at h ⊢
        rcases feb_best_eq s rest best h with h1 | ⟨d, hd, h2⟩
        · exact Or.inl h1
        · exact Or.inr ⟨d, by simp [hd], h2⟩

theorem feb_exact (s : Nat) : ∀ (l : List Block) (best : Nat) (b : Block),
    (findExactOrBest s l best).1 = some b →
    b.size = s ∧ ∃ l1 l2, l = l1 ++ b :: l2 ∧ ∀ c ∈ l1, c.size ≠ s
  | [], best, b, h => by simp [findExactOrBest] at h
  | c :: rest, best, b, h => by
    by_cases hc : c.size = s
    · have hb : c = b := by simpa [findExactOrBest, hc] using h
      subst hb
      exact ⟨hc, [], rest, rfl, by simp⟩
    · by_cases hlt : s < c.size ∧ c.size < best
      · have heq : findExactOrBest s (c :: rest) best = findExactOrBest s rest c.size := by
          simp [findExactOrBest, hc, hlt]
        rw [heq] at h
        obtain ⟨hb, l1, l2, hsplit, hl1⟩ := feb_exact s rest c.size b h
        exact ⟨hb, c :: l1, l2, by simp [hsplit], by simpa [hc] using hl1⟩
      · have heq : findExactOrBest s (c :: rest) best = findExactOrBest s rest best := by
          simp [findExactOrBest, hc, hlt]
        rw [heq] at h
        obtain ⟨hb, l1, l2, hsplit, hl1⟩ := feb_exact s rest best b h
        exact ⟨hb, c :: l1, l2, by simp [hsplit], by simpa [hc] using hl1⟩

theorem findBySize_some (q : Nat) : ∀ (l : List Block) (b : Block),
    findBySize q l = some b →
    b.size = q ∧ ∃ l1 l2, l = l1 ++ b :: l2 ∧ ∀ c ∈ l1, c.size ≠ q
  | [], b, h => by simp [findBySize] at h
  | c :: rest, b, h => by
    by_cases hc : c.size = q
    · have hb : c = b := by simpa [findBySize, hc] using h
      subst hb
      exact ⟨hc, [], rest, rfl, by simp⟩
    · have h' : findBySize q rest = some b := by simpa [findBySize, hc] using h
      obtain ⟨hb, l1, l2, hsplit, hl1⟩ := findBySize_some q rest b h'
      exact ⟨hb, c :: l1, l2, by simp [hsplit], by simpa [hc] using hl1⟩

theorem findBySize_none (q : Nat) : ∀ (l : List Block),
    findBySize q l = none → ∀ c ∈ l, c.size ≠ q
  | [], _ => by simp
  | c :: rest, h => by
    by_cases hc : c.size = q
    · simp [findBySize, hc] at h
    · have h' : findBySize q rest = none := by simpa [findBySize, hc] using h
      intro x hx
      rcases List.mem_cons.mp hx with rfl | hx'
      · exact hc
      · exact findBySize_none q rest h' x hx'

/-- A successful find_best_fit returns a block of the list, preceded only by
blocks of a different size (so the first block, in link order, of its size). -/
theorem find_best_fit_first {s : Nat} {l : List Block} {b : Block}
    (h : find_best_fit s l = some b) :
    ∃ l1 l2, l = l1 ++ b :: l2 ∧ ∀ c ∈ l1, c.size ≠ b.size := by
  match l with
  | [] => simp [find_best_fit] at h
  | x :: xs =>
    rw [find_best_fit] at h
    rcases hfe : findExactOrBest s (x :: xs) 0xffffffff with ⟨ob, best⟩
    match ob, hfe with
    | some b', hfe =>
      rw [hfe] at h
      have hbb : b' = b := Option.some.inj h
      obtain ⟨hb, l1, l2, hsplit, hl1⟩ := feb_exact s (x :: xs) 0xffffffff b'
        (by rw [hfe])
      rw [hbb] at hb hsplit
      exact ⟨l1, l2, hsplit, by rw [hb]; exact hl1⟩
    | none, hfe =>
      rw [hfe] at h
      obtain ⟨hb, l1, l2, hsplit, hl1⟩ := findBySize_some best (x :: xs) b h
      exact ⟨l1, l2, hsplit, by rw [hb]; exact hl1⟩

theorem find_best_fit_mem {s : Nat} {l : List Block} {b : Block}
    (h : find_best_fit s l = some b) : b ∈ l := by
  obtain ⟨l1, l2, hsplit, _⟩ := find_best_fit_first h
  rw [hsplit]
  simp

/-- Any block find_best_fit returns has size at least the request, provided
the request does not exceed the `0xffffffff` sentinel (inside my_malloc the
request is at most `SBRK_SIZE - TOTAL_METADATA_SIZE`). -/
theorem find_best_fit_size_ge {s : Nat} {l : List Block} {b : Block}
    (hs : s ≤ 0xffffffff) (h : find_best_fit s l = some b) : s ≤ b.size := by
  match l with
  | [] => simp [find_best_fit] at h
  | x :: xs =>
    rw [find_best_fit] at h
    rcases hfe : findExactOrBest s (x :: xs) 0xffffffff with ⟨ob, best⟩
    match ob, hfe with
    | some b', hfe =>
      rw [hfe] at h
      have hbb : b' = b := Option.some.inj h
      have hsz := (feb_exact s (x :: xs) 0xffffffff b' (by rw [hfe])).1
      rw [hbb] at hsz
      omega
    | none, hfe =>
      rw [hfe] at h
      have hb := (findBySize_some best (x :: xs) b h).1
      have hfn : (findExactOrBest s (x :: xs) 0xffffffff).1 = none := by rw [hfe]
      rcases feb_best_eq s (x :: xs) 0xffffffff hfn with h1 | ⟨c, _, h2, h3⟩
      · rw [hfe] at h1
        simp at h1
        omega
      · rw [hfe] at h2
        simp at h2
        omega

/-- Among the qualifying blocks the returned one has minimal size, provided
all sizes stay at or below the sentinel. -/
theorem find_best_fit_min {s : Nat} {l : List Block} {b : Block}
    (hbound : ∀ c ∈ l, c.size ≤ 0xffffffff)
    (h : find_best_fit s l = some b) :
    ∀ c ∈ l, s ≤ c.size → b.size ≤ c.size := by
  intro c hc hcs
  match l with
  | [] => simp [find_best_fit] at h
  | x :: xs =>
    rw [find_best_fit] at h
    rcases hfe : findExactOrBest s (x :: xs) 0xffffffff with ⟨ob, best⟩
    match ob, hfe with
    | some b', hfe =>
      rw [hfe] at h
      have hbb : b' = b := Option.some.inj h
      have hsz := (feb_exact s (x :: xs) 0xffffffff b' (by rw [hfe])).1
      rw [hbb] at hsz
      omega
    | none, hfe =>
      rw [hfe] at h
      have hb := (findBySize_some best (x :: xs) b h).1
      have hfn : (findExactOrBest s (x :: xs) 0xffffffff).1 = none := by rw [hfe]
      have hne := (feb_fst_none_iff s (x :: xs) 0xffffffff).mp hfn c hc
      have hlt : s < c.size := by omega
      have hmin := feb_best_min s (x :: xs) 0xffffffff hfn c hc hlt
      rw [hfe] at hmin
      simp at hmin
      omega

/-- When find_best_fit returns none, no block qualifies — provided request
and block sizes stay at or below the sentinel (without the bound the C misses
qualifying blocks; see the counterexample for claim C4). -/
theorem find_best_fit_none {s : Nat} {l : List Block}
    (hbound : ∀ c ∈ l, c.size ≤ 0xffffffff) (hs : s ≤ 0xffffffff)
    (h : find_best_fit s l = none) : ∀ c ∈ l, c.size < s := by
  intro c hc
  match l with
  | [] => simp at hc
  | x :: xs =>
    rw [find_best_fit] at h
    rcases hfe : findExactOrBest s (x :: xs) 0xffffffff with ⟨ob, best⟩
    match ob, hfe with
    | some b', hfe => rw [hfe] at h; simp at h
    | none, hfe =>
      rw [hfe] at h
      have hfn : (findExactOrBest s (x :: xs) 0xffffffff).1 = none := by rw [hfe]
      have hne := (feb_fst_none_iff s (x :: xs) 0xffffffff).mp hfn c hc
      by_contra hcon
      have hlt : s < c.size := by omega
      have hmin := feb_best_min s (x :: xs) 0xffffffff hfn c hc hlt
      rw [hfe] at hmin
      simp only at hmin
      have hnone := findBySize_none best (x :: xs) h
      rcases feb_best_eq s (x :: xs) 0xffffffff hfn with h1 | ⟨d, hd, h2, h3⟩
      · rw [hfe] at h1
        simp only at h1
        have hcb := hbound c hc
        have : c.size = best := by omega
        exact hnone c hc this
      · rw [hfe] at h2
        simp only at h2
        exact hnone d hd h2.symm

/-- The insertion of add_to_addr_list lands immediately before the first entry
whose address is not below the block's. -/
theorem add_to_addr_list_eq (b : Block) : ∀ l : List Block,
    add_to_addr_list b l =
      l.takeWhile (fun c => c.addr < b.addr) ++ b :: l.dropWhile (fun c => c.addr < b.addr)
  | [] => by simp [add_to_addr_list]
  | c :: rest => by
    by_cases hc : c.addr < b.addr
    · simp [add_to_addr_list, hc, List.takeWhile_cons, List.dropWhile_cons,
        add_to_addr_list_eq b rest]
    · simp [add_to_addr_list, hc, List.takeWhile_cons, List.dropWhile_cons]

theorem add_to_addr_list_middle (b : Block) : ∀ (l1 l2 : List Block),
    (∀ c ∈ l1, c.addr < b.addr) → (∀ c ∈ l2, b.addr < c.addr) →
    add_to_addr_list b (l1 ++ l2) = l1 ++ b :: l2
  | [], l2, _, h2 => by
    cases l2 with
    | nil => rfl
    | cons c rest =>
      have hc : ¬(c.addr < b.addr) := by
        have := h2 c (by simp)
        omega
      simp [add_to_addr_list, hc]
  | c :: l1, l2, h1, h2 => by
    have hc : c.addr < b.addr := h1 c (by simp)
    simp only [List.cons_append, add_to_addr_list, if_pos hc, List.append_eq]
    rw [add_to_addr_list_middle b l1 l2 (fun x hx => h1 x (by simp [hx])) h2]

theorem remove_from_addr_list_middle (t : Block) : ∀ (l1 l2 : List Block),
    (∀ c ∈ l1, c.addr ≠ t.addr) →
    remove_from_addr_list t (l1 ++ t :: l2) = l1 ++ l2
  | [], l2, _ => by simp [remove_from_addr_list]
  | c :: l1, l2, h => by
    have hc : c.addr ≠ t.addr := h c (by simp)
    simp only [List.cons_append, remove_from_addr_list, if_neg hc, List.append_eq]
    rw [remove_from_addr_list_middle t l1 l2 (fun x hx => h x (by simp [hx]))]

theorem replaceFirst_middle (t x : Block) : ∀ (l1 l2 : List Block),
    (∀ c ∈ l1, c ≠ t) → replaceFirst t x (l1 ++ t :: l2) = l1 ++ x :: l2
  | [], l2, _ => by simp [replaceFirst]
  | c :: l1, l2, h => by
    have hc : c ≠ t := h c (by simp)
    simp only [List.cons_append, replaceFirst, if_neg hc, List.append_eq]
    rw [replaceFirst_middle t x l1 l2 (fun y hy => h y (by simp [hy]))]

theorem wfFree_pairwise {l : List Block} (h : wfFree l) :
    List.Pairwise (fun a b => a.addr + TOTAL_METADATA_SIZE + a.size < b.addr) l := by
  haveI : IsTrans Block (fun a b => a.addr + TOTAL_METADATA_SIZE + a.size < b.addr) :=
    ⟨fun a b c hab hbc => by omega⟩
  exact List.chain'_iff_pairwise.mp h

theorem sortedAddr_pairwise {l : List Block} (h : sortedAddr l) :
    List.Pairwise (fun a b => a.addr < b.addr) l := by
  haveI : IsTrans Block (fun a b => a.addr < b.addr) :=
    ⟨fun a b c hab hbc => by omega⟩
  exact List.chain'_iff_pairwise.mp h

/-- What a well-formed split `l1 ++ t :: l2` says about the pieces: everything
in `l1` ends strictly before `t` and `t` ends strictly before everything in
`l2`. -/
theorem wfFree_split_facts {l1 l2 : List Block} {t : Block}
    (h : wfFree (l1 ++ t :: l2)) :
    (∀ c ∈ l1, c.addr + TOTAL_METADATA_SIZE + c.size < t.addr) ∧
    (∀ c ∈ l2, t.addr + TOTAL_METADATA_SIZE + t.size < c.addr) := by
  have hp := wfFree_pairwise h
  rw [List.pairwise_append] at hp
  obtain ⟨_, hp2, hcross⟩ := hp
  rw [List.pairwise_cons] at hp2
  exact ⟨fun c hc => hcross c hc t (by simp), hp2.1⟩

/-- When the whole list is well formed, a split around a member also gives
`wfFree` of the two surrounding runs and of the list with the member
removed. -/
theorem wfFree_chain_parts {l1 l2 : List Block} {t : Block}
    (h : wfFree (l1 ++ t :: l2)) : wfFree l2 := by
  have h2 := (List.chain'_append.mp h).2.1
  exact (List.chain'_cons'.mp h2).2

/-- Pass the merge pass through a run `l1` with no adjacency until the
adjacent pair `x, y` is hit; the pair merges back into `t` and the rest of the
well-formed list is untouched.  This is the shape the free list has right
after `my_free` reinserts a tail block that `split_block` carved off `t`. -/
theorem onePass_splice (t x y : Block) (l2 : List Block)
    (hxa : x.addr = t.addr)
    (hadj : x.addr + TOTAL_METADATA_SIZE + x.size = y.addr)
    (hmerge : merge x y = t) :
    ∀ (prev : Block) (l1 : List Block),
      wfFree (prev :: (l1 ++ t :: l2)) →
      onePass prev (l1 ++ x :: y :: l2) = (prev :: (l1 ++ t :: l2), true)
  | prev, [], h => by
    have hpt : prev.addr + TOTAL_METADATA_SIZE + prev.size < t.addr :=
      (List.chain'_cons'.mp h).1 t rfl
    have hne : prev.addr + TOTAL_METADATA_SIZE + prev.size ≠ x.addr := by omega
    have hwt : wfFree (t :: l2) := (List.chain'_cons'.mp h).2
    simp only [List.nil_append]
    rw [onePass_cons, if_neg hne]
    match l2, hwt with
    | [], _ =>
      rw [onePass_cons, if_pos hadj]
      simp [hmerge]
    | d :: l2', hwt =>
      rw [onePass_cons, if_pos hadj]
      have hna : noAdjacent (d :: l2') := wfFree_noAdjacent (List.chain'_cons'.mp hwt).2
      have hop := noAdj_onePass d l2' hna
      simp [hmerge, hop]
  | prev, c :: l1, h => by
    have hpc : prev.addr + TOTAL_METADATA_SIZE + prev.size < c.addr :=
      (List.chain'_cons'.mp h).1 c rfl
    have hne : prev.addr + TOTAL_METADATA_SIZE + prev.size ≠ c.addr := by omega
    have ih := onePass_splice t x y l2 hxa hadj hmerge c l1 (List.chain'_cons'.mp h).2
    simp only [List.cons_append]
    rw [onePass_cons, if_neg hne, ih]

/-- Coalescing the list `l1 ++ x :: y :: l2` that `my_free` builds after a
split allocation is returned: the adjacent pair merges back into `t` and a
second pass confirms the fixpoint. -/
theorem mergeAll_splice (t x y : Block) (l1 l2 : List Block)
    (hxa : x.addr = t.addr)
    (hadj : x.addr + TOTAL_METADATA_SIZE + x.size = y.addr)
    (hmerge : merge x y = t)
    (h : wfFree (l1 ++ t :: l2)) :
    mergeAll (l1 ++ x :: y :: l2) = l1 ++ t :: l2 := by
  have hna : noAdjacent (l1 ++ t :: l2) := wfFree_noAdjacent h
  match l1, h with
  | [], h =>
    have hwt : wfFree (t :: l2) := h
    rw [mergeAll]
    simp only [List.nil_append, List.length_cons]
    rw [mergeAllAux]
    match l2, hwt, hna with
    | [], _, hna =>
      rw [show onePass x [y] = ([t], true) by rw [onePass_cons, if_pos hadj]; simp [hmerge]]
      simp [mergeAllAux, onePass]
    | d :: l2', hwt, hna =>
      have hnad : noAdjacent (d :: l2') := wfFree_noAdjacent (List.chain'_cons'.mp hwt).2
      have hop := noAdj_onePass d l2' hnad
      rw [show onePass x (y :: d :: l2') = (t :: d :: l2', true) by
        rw [onePass_cons, if_pos hadj]; simp [hmerge, hop]]
      simp only [if_pos rfl]
      exact mergeAllAux_of_noAdjacent _ _ (by simpa [noAdjacent] using hna)
  | p :: l1', h =>
    have hsp := onePass_splice t x y l2 hxa hadj hmerge p l1' h
    rw [mergeAll]
    simp only [List.cons_append, List.length_cons]
    rw [mergeAllAux, hsp]
    simp only [if_pos rfl]
    exact mergeAllAux_of_noAdjacent _ _ (by simpa using hna)

/-- Removing a block from a well-formed free list and reinserting it (what
my_free does after an unsplit allocation is released) reproduces the original
list; coalescing then finds nothing to merge. -/
theorem remove_add_roundtrip {l1 l2 : List Block} {t : Block}
    (hwf : wfFree (l1 ++ t :: l2)) :
    mergeAll (add_to_addr_list t (remove_from_addr_list t (l1 ++ t :: l2))) = l1 ++ t :: l2 := by
  obtain ⟨f1, f2⟩ := wfFree_split_facts hwf
  rw [remove_from_addr_list_middle t l1 l2 (fun c hc => by have := f1 c hc; omega)]
  rw [add_to_addr_list_middle t l1 l2 (fun c hc => by have := f1 c hc; omega)
    (fun c hc => by have := f2 c hc; omega)]
  exact mergeAll_of_noAdjacent (wfFree_noAdjacent hwf)

/-- Releasing the tail block that split_block carved off `t` restores the
original well-formed free list: the shrunken front block and the tail are
adjacent, merge back into `t`, and nothing else merges. -/
theorem split_free_roundtrip {l1 l2 : List Block} {t : Block} {s : Nat}
    (hwf : wfFree (l1 ++ t :: l2)) (hsp : s + TOTAL_METADATA_SIZE + 1 ≤ t.size) :
    mergeAll (add_to_addr_list (split_block t s).2
      (replaceFirst t (split_block t s).1 (l1 ++ t :: l2))) = l1 ++ t :: l2 := by
  obtain ⟨f1, f2⟩ := wfFree_split_facts hwf
  have hxaddr : (split_block t s).1.addr = t.addr := rfl
  have hxsize : (split_block t s).1.size = t.size - (s + TOTAL_METADATA_SIZE) := rfl
  have hyaddr : (split_block t s).2.addr =
      t.addr + TOTAL_METADATA_SIZE + t.size - (s + TOTAL_METADATA_SIZE) := rfl
  have hysize : (split_block t s).2.size = s := rfl
  rw [replaceFirst_middle t (split_block t s).1 l1 l2
    (fun c hc heq => by have := f1 c hc; rw [heq] at this; omega)]
  have hadj : (split_block t s).1.addr + TOTAL_METADATA_SIZE + (split_block t s).1.size =
      (split_block t s).2.addr := by
    rw [hxaddr, hxsize, hyaddr]; omega
  have hmerge : merge (split_block t s).1 (split_block t s).2 = t := by
    have h1 : (split_block t s).1.size + (split_block t s).2.size + TOTAL_METADATA_SIZE
        = t.size := by rw [hxsize, hysize]; omega
    rw [merge, hxaddr, h1]
  have hylow : t.addr < (split_block t s).2.addr := by rw [hyaddr]; omega
  have hyhigh : (split_block t s).2.addr ≤ t.addr + TOTAL_METADATA_SIZE + t.size := by
    rw [hyaddr]; omega
  have hadd : add_to_addr_list (split_block t s).2 (l1 ++ (split_block t s).1 :: l2)
      = l1 ++ (split_block t s).1 :: (split_block t s).2 :: l2 := by
    have hmid := add_to_addr_list_middle (split_block t s).2 (l1 ++ [(split_block t s).1]) l2
      (fun c hc => by
        rcases List.mem_append.mp hc with hc1 | hc2
        · have := f1 c hc1; omega
        · have : c = (split_block t s).1 := by simpa using hc2
          rw [this, hxaddr]; exact hylow)
      (fun c hc => by have := f2 c hc; omega)
    simpa using hmid
  rw [hadd]
  exact mergeAll_splice t (split_block t s).1 (split_block t s).2 l1 l2 hxaddr hadj hmerge hwf

/-- When finishAlloc returns NULL (the unreachable fall-through of line 190)
the state is handed back unchanged. -/
theorem finishAlloc_none_frame {s : Nat} {t : Block} {st : AllocState}
    (h : (finishAlloc s t st).1 = none) : (finishAlloc s t st).2 = st := by
  rw [finishAlloc] at h ⊢
  split_ifs at h ⊢
  simp_all

/-- When the selected block is big enough, finishAlloc hands out a payload
pointer, records the handed-out block at the head of `live`, clears the errno
and touches nothing else. -/
theorem finishAlloc_success (s : Nat) (t : Block) (st : AllocState) (hts : s ≤ t.size) :
    ∃ b, (finishAlloc s t st).1 = some (b.addr + TOTAL_METADATA_SIZE) ∧
      (finishAlloc s t st).2.live = b :: st.live ∧
      (finishAlloc s t st).2.errno = .NO_ERROR ∧
      (finishAlloc s t st).2.heapEnd = st.heapEnd ∧
      (finishAlloc s t st).2.mem = st.mem ∧
      s ≤ b.size := by
  by_cases he : t.size = s
  · exact ⟨t, by simp [finishAlloc, he], by simp [finishAlloc, he], by simp [finishAlloc, he],
      by simp [finishAlloc, he], by simp [finishAlloc, he], by omega⟩
  · have hlt : s < t.size := by omega
    by_cases hsp : s + TOTAL_METADATA_SIZE + 1 ≤ t.size
    · refine ⟨(split_block t s).2, ?_, ?_, ?_, ?_, ?_, ?_⟩ <;>
        simp [finishAlloc, he, hlt, hsp, split_block]
    · exact ⟨t, by simp [finishAlloc, he, hlt, hsp], by simp [finishAlloc, he, hlt, hsp],
        by simp [finishAlloc, he, hlt, hsp], by simp [finishAlloc, he, hlt, hsp],
        by simp [finishAlloc, he, hlt, hsp], by omega⟩

theorem my_malloc_eq_toolarge {s : Nat} {ok : Bool} {st : AllocState}
    (h : SBRK_SIZE - TOTAL_METADATA_SIZE < s) :
    my_malloc s ok st = (none, { st with errno := .SINGLE_REQUEST_TOO_LARGE }) := by
  simp [my_malloc, h]

theorem my_malloc_eq_zero {ok : Bool} {st : AllocState} :
    my_malloc 0 ok st = (none, { st with errno := .NO_ERROR }) := by
  simp [my_malloc, SBRK_SIZE, TOTAL_METADATA_SIZE]

theorem my_malloc_eq_found {s : Nat} {ok : Bool} {st : AllocState} {t : Block}
    (h1 : ¬ SBRK_SIZE - TOTAL_METADATA_SIZE < s) (h2 : s ≠ 0)
    (hf : find_best_fit s st.free = some t) :
    my_malloc s ok st = finishAlloc s t { st with errno := .NO_ERROR } := by
  simp [my_malloc, h1, h2, hf]

theorem my_malloc_eq_nosbrk {s : Nat} {st : AllocState}
    (h1 : ¬ SBRK_SIZE - TOTAL_METADATA_SIZE < s) (h2 : s ≠ 0)
    (hf : find_best_fit s st.free = none) :
    my_malloc s false st = (none, { st with errno := .OUT_OF_MEMORY }) := by
  simp [my_malloc, h1, h2, hf]

theorem my_malloc_eq_grow {s : Nat} {st : AllocState}
    (h1 : ¬ SBRK_SIZE - TOTAL_METADATA_SIZE < s) (h2 : s ≠ 0)
    (hf : find_best_fit s st.free = none) :
    my_malloc s true st = growRetry s { st with errno := .NO_ERROR } := by
  simp [my_malloc, h1, h2, hf]

theorem growRetry_eq_none {s : Nat} {st0 : AllocState}
    (hf2 : find_best_fit s (grownState st0).free = none) :
    growRetry s st0 = (none, { grownState st0 with errno := .OUT_OF_MEMORY }) := by
  rw [growRetry, hf2]

theorem growRetry_eq_small {s : Nat} {st0 : AllocState} {t : Block}
    (hf2 : find_best_fit s (grownState st0).free = some t) (ht : t.size < s) :
    growRetry s st0 = (none, { grownState st0 with errno := .OUT_OF_MEMORY }) := by
  rw [growRetry, hf2]
  simp [ht]

theorem growRetry_eq_finish {s : Nat} {st0 : AllocState} {t : Block}
    (hf2 : find_best_fit s (grownState st0).free = some t) (ht : ¬ t.size < s) :
    growRetry s st0 = finishAlloc s t (grownState st0) := by
  rw [growRetry, hf2]
  simp [ht]

/-- A failing my_malloc changes neither the live allocations nor a single
payload byte (it may only register a freshly obtained chunk in the free
list). -/
theorem my_malloc_none_frame {s : Nat} {ok : Bool} {st : AllocState}
    (h : (my_malloc s ok st).1 = none) :
    (my_malloc s ok st).2.live = st.live ∧ (my_malloc s ok st).2.mem = st.mem := by
  by_cases h1 : SBRK_SIZE - TOTAL_METADATA_SIZE < s
  · rw [my_malloc_eq_toolarge h1]
    exact ⟨rfl, rfl⟩
  · by_cases h2 : s = 0
    · subst h2
      rw [my_malloc_eq_zero]
      exact ⟨rfl, rfl⟩
    · cases hf : find_best_fit s st.free with
      | some t =>
        rw [my_malloc_eq_found h1 h2 hf] at h ⊢
        rw [finishAlloc_none_frame h]
        exact ⟨rfl, rfl⟩
      | none =>
        cases ok with
        | false =>
          rw [my_malloc_eq_nosbrk h1 h2 hf]
          exact ⟨rfl, rfl⟩
        | true =>
          rw [my_malloc_eq_grow h1 h2 hf] at h ⊢
          cases hf2 : find_best_fit s (grownState { st with errno := .NO_ERROR }).free with
          | none =>
            rw [growRetry_eq_none hf2]
            exact ⟨rfl, rfl⟩
          | some t =>
            by_cases ht : t.size < s
            · rw [growRetry_eq_small hf2 ht]
              exact ⟨rfl, rfl⟩
            · rw [growRetry_eq_finish hf2 ht] at h ⊢
              rw [finishAlloc_none_frame h]
              exact ⟨rfl, rfl⟩

theorem add_to_addr_list_head (b : Block) (l : List Block) :
    (add_to_addr_list b l).head? = some b ∨ (add_to_addr_list b l).head? = l.head? := by
  cases l with
  | nil => exact Or.inl rfl
  | cons c rest =>
    by_cases hc : c.addr < b.addr
    · right
      simp [add_to_addr_list, hc]
    · left
      simp [add_to_addr_list, hc]

theorem add_to_addr_list_sorted {b : Block} : ∀ {l : List Block}, sortedAddr l →
    (∀ c ∈ l, c.addr ≠ b.addr) → sortedAddr (add_to_addr_list b l)
  | [], _, _ => by simp [add_to_addr_list, sortedAddr]
  | c :: rest, hsort, hfresh => by
    rw [add_to_addr_list]
    by_cases hc : c.addr < b.addr
    · rw [if_pos hc]
      have hsr : sortedAddr rest := (List.chain'_cons'.mp hsort).2
      have ih := add_to_addr_list_sorted hsr (fun x hx => hfresh x (by simp [hx]))
      rw [sortedAddr, List.chain'_cons']
      refine ⟨?_, ih⟩
      intro y hy
      rcases add_to_addr_list_head b rest with h | h
      · rw [h] at hy
        simp only [Option.mem_def, Option.some.injEq] at hy
        rw [← hy]
        exact hc
      · rw [h] at hy
        exact (List.chain'_cons'.mp hsort).1 y hy
    · rw [if_neg hc]
      have hbc : b.addr < c.addr := by
        have := hfresh c (by simp)
        omega
      rw [sortedAddr, List.chain'_cons]
      exact ⟨hbc, hsort⟩

theorem sortedAddr_nodup {l : List Block} (h : sortedAddr l) : (l.map Block.addr).Nodup := by
  have hp := sortedAddr_pairwise h
  have hlt : List.Pairwise (· < ·) (l.map Block.addr) :=
    List.Pairwise.map Block.addr (fun _ _ hab => hab) hp
  exact hlt.imp Nat.ne_of_lt

theorem my_realloc_eq_fail (a s : Nat) (ok : Bool) (st : AllocState) (hs0 : s ≠ 0)
    (hm : (my_malloc s ok { st with errno := .NO_ERROR }).1 = none) :
    my_realloc (some a) s ok st = (none, (my_malloc s ok { st with errno := .NO_ERROR }).2) := by
  simp only [my_realloc, if_neg hs0]
  rcases hmm : my_malloc s ok { st with errno := .NO_ERROR } with ⟨r, st1⟩
  rw [hmm] at hm
  have hr : r = none := hm
  subst hr
  rfl

theorem my_realloc_fst_of_malloc_some (a s : Nat) (ok : Bool) (st : AllocState) (t : Nat)
    (hs0 : s ≠ 0)
    (hm : (my_malloc s ok { st with errno := .NO_ERROR }).1 = some t) :
    (my_realloc (some a) s ok st).1 = some t := by
  simp only [my_realloc, if_neg hs0]
  rcases hmm : my_malloc s ok { st with errno := .NO_ERROR } with ⟨r, st1⟩
  rw [hmm] at hm
  have hr : r = some t := hm
  subst hr
  cases hl : lookupLive a st1.live <;> simp [hl]

theorem my_free_some (a : Nat) (st : AllocState) (b : Block)
    (hb : lookupLive a st.live = some b) :
    my_free (some a) st =
      { st with errno := .NO_ERROR,
                free := mergeAll (add_to_addr_list b st.free),
                live := removeLive a st.live } := by
  simp [my_free, hb]

/-
The claims.
-/

/-- C8: `allocate(0)` always returns none with the error state set to
NO_ERROR, and for every size above `SBRK_SIZE - TOTAL_METADATA_SIZE` (chunk
granularity minus header size) allocate always returns none with
SINGLE_REQUEST_TOO_LARGE, deterministically, leaving the free list, the live
allocations, the heap boundary and every payload byte unchanged (the whole
state except `errno` is handed back as it came in). -/
theorem c8_boundary_cases (st : AllocState) (ok : Bool) (s : Nat) :
    my_malloc 0 ok st = (none, { st with errno := .NO_ERROR }) ∧
    (SBRK_SIZE - TOTAL_METADATA_SIZE < s →
      my_malloc s ok st = (none, { st with errno := .SINGLE_REQUEST_TOO_LARGE })) :=
  ⟨my_malloc_eq_zero, fun h => my_malloc_eq_toolarge h⟩

/-- C8 witness: the two boundary cases at a concrete state and size. -/
theorem c8_boundary_cases_witness :
    my_malloc 0 true stEmpty = (none, { stEmpty with errno := .NO_ERROR }) ∧
    my_malloc 9000 true stEmpty = (none, { stEmpty with errno := .SINGLE_REQUEST_TOO_LARGE }) :=
  ⟨(c8_boundary_cases stEmpty true 9000).1,
   (c8_boundary_cases stEmpty true 9000).2 (by decide)⟩

/-- C10: for every free-list state and every size, a non-null result of
allocate comes with errno NO_ERROR and a freshly recorded block whose payload
capacity is at least the request; a null result comes from the size-0 case
(errno NO_ERROR) or carries SINGLE_REQUEST_TOO_LARGE or OUT_OF_MEMORY — the
final fall-through of my_malloc (line 190, none with NO_ERROR for a nonzero
size) is unreachable. -/
theorem c10_malloc_result (st : AllocState) (s : Nat) (ok : Bool) :
    ((my_malloc s ok st).1 = none →
      (s = 0 ∧ (my_malloc s ok st).2.errno = .NO_ERROR) ∨
      (my_malloc s ok st).2.errno = .SINGLE_REQUEST_TOO_LARGE ∨
      (my_malloc s ok st).2.errno = .OUT_OF_MEMORY) ∧
    (∀ p, (my_malloc s ok st).1 = some p →
      (my_malloc s ok st).2.errno = .NO_ERROR ∧
      ∃ b, (my_malloc s ok st).2.live = b :: st.live ∧
        p = b.addr + TOTAL_METADATA_SIZE ∧ s ≤ b.size) := by
  by_cases h1 : SBRK_SIZE - TOTAL_METADATA_SIZE < s
  · rw [my_malloc_eq_toolarge h1]
    exact ⟨fun _ => Or.inr (Or.inl rfl), fun p hp => by simp at hp⟩
  · by_cases h2 : s = 0
    · subst h2
      rw [my_malloc_eq_zero]
      exact ⟨fun _ => Or.inl ⟨rfl, rfl⟩, fun p hp => by simp at hp⟩
    · have hsb : s ≤ 0xffffffff := by
        rw [SBRK_SIZE, TOTAL_METADATA_SIZE] at h1
        omega
      cases hf : find_best_fit s st.free with
      | some t =>
        have hts : s ≤ t.size := find_best_fit_size_ge hsb hf
        rw [my_malloc_eq_found h1 h2 hf]
        obtain ⟨b, hb1, hb2, hb3, _, _, hb6⟩ :=
          finishAlloc_success s t { st with errno := .NO_ERROR } hts
        constructor
        · intro hnone
          rw [hb1] at hnone
          simp at hnone
        · intro p hp
          rw [hb1] at hp
          exact ⟨hb3, b, hb2, (Option.some.inj hp).symm, hb6⟩
      | none =>
        cases ok with
        | false =>
          rw [my_malloc_eq_nosbrk h1 h2 hf]
          exact ⟨fun _ => Or.inr (Or.inr rfl), fun p hp => by simp at hp⟩
        | true =>
          rw [my_malloc_eq_grow h1 h2 hf]
          cases hf2 : find_best_fit s (grownState { st with errno := .NO_ERROR }).free with
          | none =>
            rw [growRetry_eq_none hf2]
            exact ⟨fun _ => Or.inr (Or.inr rfl), fun p hp => by simp at hp⟩
          | some t =>
            by_cases ht : t.size < s
            · rw [growRetry_eq_small hf2 ht]
              exact ⟨fun _ => Or.inr (Or.inr rfl), fun p hp => by simp at hp⟩
            · rw [growRetry_eq_finish hf2 ht]
              obtain ⟨b, hb1, hb2, hb3, _, _, hb6⟩ :=
                finishAlloc_success s t (grownState { st with errno := .NO_ERROR }) (by omega)
              constructor
              · intro hnone
                rw [hb1] at hnone
                simp at hnone
              · intro p hp
                rw [hb1] at hp
                exact ⟨hb3, b, hb2, (Option.some.inj hp).symm, hb6⟩

/-- C10 witness: a failing allocation (no block, heap extension refused) ends
in OUT_OF_MEMORY. -/
theorem c10_malloc_result_witness :
    (50 = 0 ∧ (my_malloc 50 false stEmpty).2.errno = .NO_ERROR) ∨
    (my_malloc 50 false stEmpty).2.errno = .SINGLE_REQUEST_TOO_LARGE ∨
    (my_malloc 50 false stEmpty).2.errno = .OUT_OF_MEMORY :=
  (c10_malloc_result stEmpty 50 false).1 (by decide)

/-- C6: for every pointer to a live allocation and every positive size, when
the fresh allocation inside my_realloc fails, my_realloc returns none and the
original block — its recorded header and every payload byte — is left
completely unchanged and still valid. -/
theorem c6_realloc_failure_preserves (a s : Nat) (ok : Bool) (st : AllocState) (b : Block)
    (hs : 0 < s) (hb : lookupLive a st.live = some b)
    (hfail : (my_realloc (some a) s ok st).1 = none) :
    (my_realloc (some a) s ok st).2.live = st.live ∧
    lookupLive a (my_realloc (some a) s ok st).2.live = some b ∧
    (∀ i, i < b.size → (my_realloc (some a) s ok st).2.mem (a + i) = st.mem (a + i)) := by
  have hs0 : s ≠ 0 := by omega
  cases hm : (my_malloc s ok { st with errno := .NO_ERROR }).1 with
  | none =>
    rw [my_realloc_eq_fail a s ok st hs0 hm]
    obtain ⟨hl, hmem⟩ := my_malloc_none_frame hm
    refine ⟨hl, ?_, ?_⟩
    · rw [hl]
      exact hb
    · intro i _
      rw [hmem]
  | some t =>
    exfalso
    rw [my_realloc_fst_of_malloc_some a s ok st t hs0 hm] at hfail
    simp at hfail

/-- C6 witness: resize to an impossible size (beyond one chunk) fails and
leaves the concrete live block and its bytes in place. -/
theorem c6_realloc_failure_preserves_witness :
    (my_realloc (some 65552) 9000 true
        { stEmpty with live := [⟨65536, 100⟩] }).2.live = [⟨65536, 100⟩] ∧
    lookupLive 65552 (my_realloc (some 65552) 9000 true
        { stEmpty with live := [⟨65536, 100⟩] }).2.live = some ⟨65536, 100⟩ ∧
    (my_realloc (some 65552) 9000 true
        { stEmpty with live := [⟨65536, 100⟩] }).2.mem (65552 + 7) =
      ({ stEmpty with live := [⟨65536, 100⟩] } : AllocState).mem (65552 + 7) := by
  have h := c6_realloc_failure_preserves 65552 9000 true
    { stEmpty with live := [⟨65536, 100⟩] } ⟨65536, 100⟩ (by decide) (by decide) (by decide)
  exact ⟨h.1, h.2.1, h.2.2 7 (by decide)⟩

/-- C9: my_calloc computes the request as the machine product
`nmemb * size % 2^64` (no overflow guard), delegates to my_malloc for that
total; on failure it returns none with my_malloc's resulting state (its error
state included) untouched, and on success it returns my_malloc's pointer with
the `nmemb * size % 2^64` bytes of the returned region set to zero and every
other byte and state component unchanged. -/
theorem c9_calloc_delegates (n s : Nat) (ok : Bool) (st : AllocState) :
    ((my_malloc (n * s % SIZE_T_MOD) ok { st with errno := .NO_ERROR }).1 = none →
      my_calloc n s ok st =
        (none, (my_malloc (n * s % SIZE_T_MOD) ok { st with errno := .NO_ERROR }).2)) ∧
    (∀ p, (my_malloc (n * s % SIZE_T_MOD) ok { st with errno := .NO_ERROR }).1 = some p →
      (my_calloc n s ok st).1 = some p ∧
      (my_calloc n s ok st).2.free =
        (my_malloc (n * s % SIZE_T_MOD) ok { st with errno := .NO_ERROR }).2.free ∧
      (my_calloc n s ok st).2.live =
        (my_malloc (n * s % SIZE_T_MOD) ok { st with errno := .NO_ERROR }).2.live ∧
      (my_calloc n s ok st).2.errno =
        (my_malloc (n * s % SIZE_T_MOD) ok { st with errno := .NO_ERROR }).2.errno ∧
      (my_calloc n s ok st).2.heapEnd =
        (my_malloc (n * s % SIZE_T_MOD) ok { st with errno := .NO_ERROR }).2.heapEnd ∧
      (∀ x, p ≤ x → x < p + n * s % SIZE_T_MOD → (my_calloc n s ok st).2.mem x = 0) ∧
      (∀ x, x < p → (my_calloc n s ok st).2.mem x =
        (my_malloc (n * s % SIZE_T_MOD) ok { st with errno := .NO_ERROR }).2.mem x) ∧
      (∀ x, p + n * s % SIZE_T_MOD ≤ x → (my_calloc n s ok st).2.mem x =
        (my_malloc (n * s % SIZE_T_MOD) ok { st with errno := .NO_ERROR }).2.mem x)) := by
  simp only [my_calloc]
  rcases hmm : my_malloc (n * s % SIZE_T_MOD) ok { st with errno := .NO_ERROR } with ⟨r, st1⟩
  cases r with
  | none => exact ⟨fun _ => rfl, fun p hp => by simp at hp⟩
  | some q =>
    refine ⟨fun h0 => by simp at h0, ?_⟩
    intro p hp
    have hq : q = p := Option.some.inj hp
    subst hq
    refine ⟨rfl, rfl, rfl, rfl, rfl, ?_, ?_, ?_⟩
    · intro x hx1 hx2
      simp only
      rw [if_pos ⟨hx1, hx2⟩]
    · intro x hx
      simp only
      rw [if_neg (by omega)]
    · intro x hx
      simp only
      rw [if_neg (by omega)]

/-- C9 witness: zero-allocating 2 × 3 bytes from a concrete free list returns
the six-byte tail of the block with those bytes zeroed. -/
theorem c9_calloc_delegates_witness :
    (my_calloc 2 3 true stLump).1 = some 65646 ∧
    (my_calloc 2 3 true stLump).2.mem 65646 = 0 ∧
    (my_calloc 2 3 true stLump).2.mem 65651 = 0 ∧
    (my_calloc 2 3 true stLump).2.mem 65652 = 7 := by
  have h := (c9_calloc_delegates 2 3 true stLump).2 65646 (by decide)
  refine ⟨h.1, h.2.2.2.2.2.1 65646 (by decide) (by decide),
    h.2.2.2.2.2.1 65651 (by decide) (by decide), ?_⟩
  rw [h.2.2.2.2.2.2.2 65652 (by decide)]
  decide

/-- C2 fails on the code in exactly the case the claim singles out — release
into an EMPTY free list.  The claimed insertion would leave the old (empty)
list plus the released block; the empty-list branch of add_to_addr_list
(my_malloc.c lines 68-71) instead installs the block as head without writing
`block->next` (every non-empty branch writes it, lines 80 and 83), so the
free list continues into the block's stale next chain.  After the first five
calls of the C1 trace the free list is empty (`pPenult.head = none`) and the
block to be released carries a stale next pointing at the live block 73612;
releasing it yields the two-entry free list [65536, 73612] — the second entry
was never released and its payload 73628 is still owned by a caller — rather
than the single released block.  In the shorter sequence `pJ2`/`pJ3` the
released block is a split-off tail whose `next` field was never written at
all, and the model returns `none` at the release because the C reads that
uninitialised field as a pointer (`pJ3.isNone`): no sortedness or
duplicate-freedom is guaranteed there. -/
theorem c2_stale_next_insertion :
    pPenult.head = none ∧
    pPenult.heap 65536 = some ⟨7844, NextVal.ptr 73612⟩ ∧
    pChain pFinal 64 pFinal.head = some [65536, 73612] ∧
    73628 ∈ pFinal.live ∧
    pJ2.map (fun st => st.head) = some none ∧
    pJ3.isNone = true := by
  exact ⟨by decide, by decide, by decide, by decide, by decide, by decide⟩

/-- C3: for every address-sorted free list, coalesce-all terminates (mergeAll
is a total function: each pass that merges shortens the list, so `l.length`
passes reach the fixpoint) and afterwards no entry's end address equals the
next entry's address; each individual merge replaces two adjacent blocks by
one block at the left block's address whose size is
`left.size + right.size + TOTAL_METADATA_SIZE`. -/
theorem c3_mergeAll_coalesces (l : List Block) (_hsort : sortedAddr l) :
    noAdjacent (mergeAll l) ∧
    ∀ left right : Block,
      (merge left right).size = left.size + right.size + TOTAL_METADATA_SIZE ∧
      (merge left right).addr = left.addr :=
  ⟨mergeAll_noAdjacent l, fun _ _ => ⟨rfl, rfl⟩⟩

/-- C3 witness: two adjacent blocks coalesce into one block of the combined
size plus one header. -/
theorem c3_mergeAll_coalesces_witness :
    noAdjacent (mergeAll [⟨65536, 16⟩, ⟨65568, 10⟩]) ∧
    (merge ⟨65536, 16⟩ ⟨65568, 10⟩).size = 16 + 10 + TOTAL_METADATA_SIZE ∧
    (merge ⟨65536, 16⟩ ⟨65568, 10⟩).addr = 65536 :=
  ⟨(c3_mergeAll_coalesces [⟨65536, 16⟩, ⟨65568, 10⟩] (by decide)).1,
   (c3_mergeAll_coalesces [⟨65536, 16⟩, ⟨65568, 10⟩] (by decide)).2 ⟨65536, 16⟩ ⟨65568, 10⟩⟩

/-- C4 counterexample: the claim fails as stated, because `bestSize` starts at
the 32-bit literal 0xffffffff (my_malloc.c line 121).  First: a free list
holding one block of size 2^32 = 0x100000000 satisfies a request of 1 byte,
yet find_best_fit returns none (the block is never recorded as a candidate,
since `curr->size < bestSize` is false).  Second: for a request above the
sentinel, a block of size exactly 0xffffffff — too small for the request — is
returned anyway (the second pass matches the sentinel itself). -/
theorem c4_counterexample :
    (find_best_fit 1 [⟨65552, 4294967296⟩] = none ∧
      (1 : Nat) ≤ (Block.mk 65552 4294967296).size) ∧
    (find_best_fit 5000000000 [⟨65552, 4294967295⟩] = some ⟨65552, 4294967295⟩ ∧
      (Block.mk 65552 4294967295).size < 5000000000) := by
  exact ⟨⟨by decide, by decide⟩, by decide, by decide⟩

/-- C4 as amended: for every address-sorted free list all of whose block
sizes are at most 0xffffffff, and every request of at most 0xffffffff,
find_best_fit returns none exactly when no block is large enough, and
otherwise returns a qualifying block of minimal qualifying size (so an exact
match whenever one exists) that is the lowest-addressed block of that size. -/
theorem c4_find_best_fit_amended (s : Nat) (l : List Block)
    (hsort : sortedAddr l)
    (hbound : ∀ c ∈ l, c.size ≤ 0xffffffff) (hs : s ≤ 0xffffffff) :
    (find_best_fit s l = none → ∀ c ∈ l, c.size < s) ∧
    (∀ b, find_best_fit s l = some b →
      b ∈ l ∧ s ≤ b.size ∧
      (∀ c ∈ l, s ≤ c.size → b.size ≤ c.size) ∧
      (∀ c ∈ l, c.size = b.size → b.addr ≤ c.addr)) := by
  constructor
  · exact fun h => find_best_fit_none hbound hs h
  · intro b hb
    refine ⟨find_best_fit_mem hb, find_best_fit_size_ge hs hb, find_best_fit_min hbound hb, ?_⟩
    obtain ⟨l1, l2, hsplit, hl1⟩ := find_best_fit_first hb
    intro c hc hcsize
    have hp := sortedAddr_pairwise hsort
    rw [hsplit] at hp hc
    rw [List.pairwise_append] at hp
    rcases List.mem_append.mp hc with hc1 | hc2
    · exact absurd hcsize (hl1 c hc1)
    · rcases List.mem_cons.mp hc2 with rfl | hc3
      · exact le_rfl
      · have hbl2 := hp.2.1
        rw [List.pairwise_cons] at hbl2
        exact le_of_lt (hbl2.1 c hc3)

/-- C4 witness: the spec's best-fit determinism example — free sizes
{10, 20, 20, 30} in address order, request 15 — selects the first size-20
block: it qualifies, no qualifying block is smaller, and among size-20 blocks
it has the lowest address. -/
theorem c4_find_best_fit_amended_witness :
    (Block.mk 65700 20) ∈ [Block.mk 65600 10, ⟨65700, 20⟩, ⟨65800, 20⟩, ⟨65900, 30⟩] ∧
    15 ≤ (Block.mk 65700 20).size ∧
    (Block.mk 65700 20).size ≤ (Block.mk 65900 30).size ∧
    (Block.mk 65700 20).addr ≤ (Block.mk 65800 20).addr := by
  have h := (c4_find_best_fit_amended 15 [⟨65600, 10⟩, ⟨65700, 20⟩, ⟨65800, 20⟩, ⟨65900, 30⟩]
    (by decide) (by decide) (by decide)).2 ⟨65700, 20⟩ (by decide)
  exact ⟨h.1, h.2.1, h.2.2.1 ⟨65900, 30⟩ (by decide) (by decide),
    h.2.2.2 ⟨65800, 20⟩ (by decide) (by decide)⟩

/-- C5: when my_malloc selects (from the existing well-formed free list) a
free block `t` whose size exceeds the request `s`: if
`t.size ≥ s + TOTAL_METADATA_SIZE + 1` it carves the tail block of payload
capacity exactly `s` off the high-address end of `t` and returns it, never
inserting it into the free list (no entry of the new free list carries its
address), while the remainder stays at `t`'s exact position in the free list
with its size reduced by exactly `s + TOTAL_METADATA_SIZE`; otherwise the
entire block is removed from the free list and handed over unsplit. -/
theorem c5_split_tail (s : Nat) (st : AllocState) (t : Block) (ok : Bool)
    (hwf : wfFree st.free)
    (h1 : ¬ SBRK_SIZE - TOTAL_METADATA_SIZE < s) (h2 : s ≠ 0)
    (hf : find_best_fit s st.free = some t)
    (hts : s < t.size) :
    (s + TOTAL_METADATA_SIZE + 1 ≤ t.size →
      ∃ l1 l2, st.free = l1 ++ t :: l2 ∧
        (my_malloc s ok st).1 = some ((split_block t s).2.addr + TOTAL_METADATA_SIZE) ∧
        (my_malloc s ok st).2.free = l1 ++ (split_block t s).1 :: l2 ∧
        (split_block t s).2.size = s ∧
        (split_block t s).2.addr + TOTAL_METADATA_SIZE + s =
          t.addr + TOTAL_METADATA_SIZE + t.size ∧
        (split_block t s).1.addr = t.addr ∧
        (split_block t s).1.size + (s + TOTAL_METADATA_SIZE) = t.size ∧
        (my_malloc s ok st).2.live = (split_block t s).2 :: st.live ∧
        (∀ c ∈ (my_malloc s ok st).2.free, c.addr ≠ (split_block t s).2.addr)) ∧
    (¬ s + TOTAL_METADATA_SIZE + 1 ≤ t.size →
      ∃ l1 l2, st.free = l1 ++ t :: l2 ∧
        (my_malloc s ok st).1 = some (t.addr + TOTAL_METADATA_SIZE) ∧
        (my_malloc s ok st).2.free = l1 ++ l2 ∧
        (my_malloc s ok st).2.live = t :: st.live) := by
  have he : ¬ t.size = s := by omega
  obtain ⟨l1, l2, hsplit⟩ := List.append_of_mem (find_best_fit_mem hf)
  have hwf' : wfFree (l1 ++ t :: l2) := hsplit ▸ hwf
  obtain ⟨f1, f2⟩ := wfFree_split_facts hwf'
  rw [my_malloc_eq_found h1 h2 hf]
  constructor
  · intro hsp
    have hfin : finishAlloc s t { st with errno := .NO_ERROR } =
        (some ((split_block t s).2.addr + TOTAL_METADATA_SIZE),
         { st with free := replaceFirst t (split_block t s).1 st.free,
                   live := (split_block t s).2 :: st.live,
                   errno := .NO_ERROR }) := by
      simp [finishAlloc, he, hts, hsp, split_block]
    rw [hfin]
    have hrf : replaceFirst t (split_block t s).1 st.free =
        l1 ++ (split_block t s).1 :: l2 := by
      rw [hsplit]
      exact replaceFirst_middle t (split_block t s).1 l1 l2
        (fun c hc heq => by have := f1 c hc; rw [heq] at this; omega)
    have hy2 : (split_block t s).2.addr =
        t.addr + TOTAL_METADATA_SIZE + t.size - (s + TOTAL_METADATA_SIZE) := rfl
    refine ⟨l1, l2, hsplit, rfl, hrf, rfl, by rw [hy2]; omega, rfl,
      by simp only [split_block]; omega, rfl, ?_⟩
    intro c hc
    rw [hrf] at hc
    rcases List.mem_append.mp hc with hc1 | hc2
    · have := f1 c hc1
      rw [hy2]
      omega
    · rcases List.mem_cons.mp hc2 with rfl | hc3
      · show (split_block t s).1.addr ≠ _
        rw [hy2]
        show t.addr ≠ _
        omega
      · have := f2 c hc3
        rw [hy2]
        omega
  · intro hsp
    have hfin : finishAlloc s t { st with errno := .NO_ERROR } =
        (some (t.addr + TOTAL_METADATA_SIZE),
         { st with free := remove_from_addr_list t st.free,
                   live := t :: st.live,
                   errno := .NO_ERROR }) := by
      simp [finishAlloc, he, hts, hsp]
    rw [hfin]
    refine ⟨l1, l2, hsplit, rfl, ?_, rfl⟩
    rw [hsplit]
    exact remove_from_addr_list_middle t l1 l2 (fun c hc => by have := f1 c hc; omega)

/-- C5 witness: requesting 30 bytes from a single 100-byte free block splits
off a 30-byte tail (address 65606, payload 65622) and shrinks the remainder
in place to 54 bytes. -/
theorem c5_split_tail_witness :
    (my_malloc 30 true { stEmpty with free := [⟨65536, 100⟩] }).1 =
      some ((split_block ⟨65536, 100⟩ 30).2.addr + TOTAL_METADATA_SIZE) ∧
    (split_block (Block.mk 65536 100) 30).2.size = 30 ∧
    (split_block (Block.mk 65536 100) 30).1.size + (30 + TOTAL_METADATA_SIZE) = 100 ∧
    (my_malloc 30 true { stEmpty with free := [⟨65536, 100⟩] }).2.live =
      [(split_block ⟨65536, 100⟩ 30).2] := by
  have h := (c5_split_tail 30 { stEmpty with free := [⟨65536, 100⟩] } ⟨65536, 100⟩ true
    (by decide) (by decide) (by decide) (by decide) (by decide)).1 (by decide)
  obtain ⟨l1, l2, _, hres, _, hsz, _, _, hshr, hlive, _⟩ := h
  exact ⟨hres, hsz, hshr, hlive⟩

/-- C7 counterexample: the claim fails as stated when the allocation has to
extend the heap — `allocate(100)` from the empty heap obtains a fresh
8192-byte chunk, and releasing the returned pointer leaves the whole chunk's
8176 payload bytes (one block) in the free list, not the zero bytes and zero
blocks of the pre-call state. -/
theorem c7_counterexample :
    freeBytes stEmpty.free = 0 ∧ stEmpty.free.length = 0 ∧
    freeBytes (my_free (my_malloc 100 true stEmpty).1
      (my_malloc 100 true stEmpty).2).free = 8176 ∧
    (my_free (my_malloc 100 true stEmpty).1
      (my_malloc 100 true stEmpty).2).free.length = 1 := by
  exact ⟨rfl, rfl, by decide, by decide⟩

/-- C7 as amended: for every state whose free list is well formed (sorted,
disjoint, non-adjacent) and every size, allocate immediately followed by
release of the returned pointer restores the total free payload bytes and the
free-block count to their pre-call values, provided the allocate call did not
successfully extend the heap (its heap boundary is unchanged) — it was served
from the existing free list or failed outright. -/
theorem c7_roundtrip_amended (st : AllocState) (s : Nat) (ok : Bool)
    (hwf : wfFree st.free)
    (hnc : (my_malloc s ok st).2.heapEnd = st.heapEnd) :
    freeBytes (my_free (my_malloc s ok st).1 (my_malloc s ok st).2).free =
      freeBytes st.free ∧
    (my_free (my_malloc s ok st).1 (my_malloc s ok st).2).free.length =
      st.free.length := by
  suffices h : (my_free (my_malloc s ok st).1 (my_malloc s ok st).2).free = st.free by
    rw [h]
    exact ⟨rfl, rfl⟩
  by_cases h1 : SBRK_SIZE - TOTAL_METADATA_SIZE < s
  · rw [my_malloc_eq_toolarge h1]
    rfl
  · by_cases h2 : s = 0
    · subst h2
      rw [my_malloc_eq_zero]
      rfl
    · cases hf : find_best_fit s st.free with
      | none =>
        cases ok with
        | false =>
          rw [my_malloc_eq_nosbrk h1 h2 hf]
          rfl
        | true =>
          exfalso
          rw [my_malloc_eq_grow h1 h2 hf] at hnc
          cases hf2 : find_best_fit s (grownState { st with errno := .NO_ERROR }).free with
          | none =>
            rw [growRetry_eq_none hf2] at hnc
            simp [grownState, SBRK_SIZE] at hnc
          | some t =>
            by_cases ht : t.size < s
            · rw [growRetry_eq_small hf2 ht] at hnc
              simp [grownState, SBRK_SIZE] at hnc
            · rw [growRetry_eq_finish hf2 ht] at hnc
              obtain ⟨b, _, _, _, hb4, _, _⟩ :=
                finishAlloc_success s t (grownState { st with errno := .NO_ERROR }) (by omega)
              rw [hb4] at hnc
              simp [grownState, SBRK_SIZE] at hnc
      | some t =>
        obtain ⟨l1, l2, hsplit⟩ := List.append_of_mem (find_best_fit_mem hf)
        have hwf' : wfFree (l1 ++ t :: l2) := hsplit ▸ hwf
        obtain ⟨f1, f2⟩ := wfFree_split_facts hwf'
        rw [my_malloc_eq_found h1 h2 hf]
        by_cases he : t.size = s
        · have hfin : finishAlloc s t { st with errno := .NO_ERROR } =
              (some (t.addr + TOTAL_METADATA_SIZE),
               { st with free := remove_from_addr_list t st.free,
                         live := t :: st.live, errno := .NO_ERROR }) := by
            simp [finishAlloc, he]
          rw [hfin]
          show (my_free (some (t.addr + TOTAL_METADATA_SIZE))
            { st with free := remove_from_addr_list t st.free,
                      live := t :: st.live, errno := .NO_ERROR }).free = st.free
          rw [my_free_some _ _ t (by simp [lookupLive])]
          show mergeAll (add_to_addr_list t (remove_from_addr_list t st.free)) = st.free
          rw [hsplit]
          exact remove_add_roundtrip hwf'
        · by_cases hlt : s < t.size
          · by_cases hsp : s + TOTAL_METADATA_SIZE + 1 ≤ t.size
            · have hfin : finishAlloc s t { st with errno := .NO_ERROR } =
                  (some ((split_block t s).2.addr + TOTAL_METADATA_SIZE),
                   { st with free := replaceFirst t (split_block t s).1 st.free,
                             live := (split_block t s).2 :: st.live,
                             errno := .NO_ERROR }) := by
                simp [finishAlloc, he, hlt, hsp, split_block]
              rw [hfin]
              show (my_free (some ((split_block t s).2.addr + TOTAL_METADATA_SIZE))
                { st with free := replaceFirst t (split_block t s).1 st.free,
                          live := (split_block t s).2 :: st.live,
                          errno := .NO_ERROR }).free = st.free
              rw [my_free_some _ _ (split_block t s).2 (by simp [lookupLive])]
              show mergeAll (add_to_addr_list (split_block t s).2
                (replaceFirst t (split_block t s).1 st.free)) = st.free
              rw [hsplit]
              exact split_free_roundtrip hwf' hsp
            · have hfin : finishAlloc s t { st with errno := .NO_ERROR } =
                  (some (t.addr + TOTAL_METADATA_SIZE),
                   { st with free := remove_from_addr_list t st.free,
                             live := t :: st.live, errno := .NO_ERROR }) := by
                simp [finishAlloc, he, hlt, hsp]
              rw [hfin]
              show (my_free (some (t.addr + TOTAL_METADATA_SIZE))
                { st with free := remove_from_addr_list t st.free,
                          live := t :: st.live, errno := .NO_ERROR }).free = st.free
              rw [my_free_some _ _ t (by simp [lookupLive])]
              show mergeAll (add_to_addr_list t (remove_from_addr_list t st.free)) = st.free
              rw [hsplit]
              exact remove_add_roundtrip hwf'
          · have hfin : finishAlloc s t { st with errno := .NO_ERROR } =
                (none, { st with errno := .NO_ERROR }) := by
              simp [finishAlloc, he, hlt]
            rw [hfin]
            rfl

/-- C7 witness: a 100-byte allocation served from an existing 500-byte block
(no heap extension) and its release restore 500 free bytes in one block. -/
theorem c7_roundtrip_amended_witness :
    freeBytes (my_free (my_malloc 100 true { stEmpty with free := [⟨65536, 500⟩] }).1
      (my_malloc 100 true { stEmpty with free := [⟨65536, 500⟩] }).2).free =
      freeBytes ({ stEmpty with free := [⟨65536, 500⟩] } : AllocState).free ∧
    (my_free (my_malloc 100 true { stEmpty with free := [⟨65536, 500⟩] }).1
      (my_malloc 100 true { stEmpty with free := [⟨65536, 500⟩] }).2).free.length =
      ({ stEmpty with free := [⟨65536, 500⟩] } : AllocState).free.length :=
  c7_roundtrip_amended { stEmpty with free := [⟨65536, 500⟩] } 100 true
    (by decide) (by decide)

/-- C1 fails on the code: the six public calls of the trace `pS1`..`pS6`
(allocate 100, allocate 200, release the first pointer, allocate 7844,
allocate 100, release the 7844-byte pointer — every release is of a pointer
previously returned and still live) leave the free list holding the header at
73612 whose 100-byte payload 73628 is still owned by a caller: a live
allocated region and a free-list block overlap, violating the partition
invariant.  The defect: my_malloc.c lines 68-70 make a released block the
head of an empty free list without resetting its `next` field, which lines
101-107 (remove_from_addr_list) left pointing at the block's one-time
successor.  A seventh call, allocate 100, then hands out payload 73628 a
second time: it appears twice in the live list. -/
theorem c1_partition_violated :
    pS6.isSome = true ∧
    pChain pFinal 64 pFinal.head = some [65536, 73612] ∧
    73628 ∈ pFinal.live ∧
    pFinal.heap 73612 = some ⟨100, NextVal.null⟩ ∧
    pSeventh.map (fun r => r.1) = some (some 73628) ∧
    pSeventh.map (fun r => r.2.live.count 73628) = some 2 := by
  exact ⟨by decide, by decide, by decide, by decide, by decide, by decide⟩

end MyMalloc
